import Mathlib

/-!
# Verification of the scrapperf scenario execution engine

Shallow embedding of `src/perf_runner.py` and `src/measure_ui.py`:
the statistics aggregator (`percentile`, `summarize`), the trigger and
target executors (including the `wait_any` racing combinator and the
`wait_stable` quiescence detector), the per-run measurement loop
(`run_once`), and the cross-run aggregation performed in `main`.

Durations and timestamps are modelled as rationals (Python floats carry
exact decimal inputs in all relevant code paths); timeouts and the
millisecond fields read with `int(...)` are modelled as integers.
Python exceptions become explicit error results; the browser-automation
collaborator (playwright) is an abstract environment (`Env`) supplying
the outcome and elapsed time of each primitive page operation.
-/

namespace Scrapperf

/-! ## Python numeric helpers -/

/-- Python `round` to an integer: round-half-to-even (banker's rounding). -/
def pyRoundInt (x : ℚ) : ℤ :=
  let f := ⌊x⌋
  let r := x - f
  if r < 1/2 then f
  else if 1/2 < r then f + 1
  else if Even f then f else f + 1

/-- Python `round(x, 2)`. -/
def round2 (x : ℚ) : ℚ := (pyRoundInt (x * 100) : ℚ) / 100

/-- Python `int(...)` applied to a float: truncation toward zero. -/
def pyInt (q : ℚ) : ℤ := if q < 0 then ⌈q⌉ else ⌊q⌋

/-- Python list indexing `xs[i]` with an integer index: negative indices
count from the end; an index out of range is an `IndexError` (`none`). -/
def pyIndex (xs : List ℚ) (i : ℤ) : Option ℚ :=
  let j := if i < 0 then i + xs.length else i
  if j < 0 then none else xs.get? j.toNat

/-- Python `sorted(values)` (ascending). -/
def pySorted (values : List ℚ) : List ℚ := List.insertionSort (· ≤ ·) values

/-- Python `min(values)` over a non-empty list. -/
def pyMin : List ℚ → Option ℚ
  | [] => none
  | x :: xs => some (xs.foldl min x)

/-- Python `max(values)` over a non-empty list. -/
def pyMax : List ℚ → Option ℚ
  | [] => none
  | x :: xs => some (xs.foldl max x)

/-! ## StatisticsAggregator: `percentile` and `summarize` -/

/-- Result of `percentile`: either the float `nan` (empty input), an
`IndexError` escaping from a list subscript, or a numeric value. -/
inductive PercResult where
  | nan : PercResult
  | indexError : PercResult
  | val (q : ℚ) : PercResult
  deriving DecidableEq, Repr

def PercResult.toVal : PercResult → Option ℚ
  | .val q => some q
  | _ => none

/-- `percentile` from `src/perf_runner.py` (uses `math.floor`). -/
def percentile (values : List ℚ) (p : ℚ) : PercResult :=
  if values = [] then .nan
  else
    let xs := pySorted values
    if xs.length = 1 then .val xs.headI
    else
      let k : ℚ := ((xs.length : ℚ) - 1) * p
      let f : ℤ := ⌊k⌋
      let c : ℤ := min (f + 1) ((xs.length : ℤ) - 1)
      if f = c then
        match pyIndex xs f with
        | some v => .val v
        | none => .indexError
      else
        match pyIndex xs f, pyIndex xs c with
        | some a, some b => .val (a + (b - a) * (k - (f : ℚ)))
        | _, _ => .indexError

/-- `percentile` from `src/measure_ui.py` (uses `int(k)`, i.e. truncation). -/
def percentile_ui (values : List ℚ) (p : ℚ) : PercResult :=
  if values = [] then .nan
  else
    let xs := pySorted values
    if xs.length = 1 then .val xs.headI
    else
      let k : ℚ := ((xs.length : ℚ) - 1) * p
      let f : ℤ := pyInt k
      let c : ℤ := min (f + 1) ((xs.length : ℤ) - 1)
      if f = c then
        match pyIndex xs f with
        | some v => .val v
        | none => .indexError
      else
        match pyIndex xs f, pyIndex xs c with
        | some a, some b => .val (a + (b - a) * (k - (f : ℚ)))
        | _, _ => .indexError

/-- The summary record built by `summarize`: `{"n": 0}` for empty input,
all six fields otherwise. -/
structure Summary where
  n : ℕ
  avg_ms : Option ℚ
  p50_ms : Option ℚ
  p95_ms : Option ℚ
  min_ms : Option ℚ
  max_ms : Option ℚ
  deriving DecidableEq, Repr

/-- `summarize` from `src/perf_runner.py`. -/
def summarize (values : List ℚ) : Summary :=
  if values = [] then ⟨0, none, none, none, none, none⟩
  else
    { n := values.length
      avg_ms := some (round2 (values.sum / (values.length : ℚ)))
      p50_ms := (percentile values (1/2)).toVal.map round2
      p95_ms := (percentile values (19/20)).toVal.map round2
      min_ms := (pyMin values).map round2
      max_ms := (pyMax values).map round2 }

example : percentile [3, 1, 2] 0 = .val 1 := by
  rw [percentile]
  norm_num [pySorted, List.insertionSort, List.orderedInsert, pyIndex]
  all_goals simp

example : percentile [3, 1, 2] 1 = .val 3 := by
  rw [percentile]
  norm_num [pySorted, List.insertionSort, List.orderedInsert, pyIndex]
  all_goals simp

example : percentile [1, 2] 2 = .indexError := by
  rw [percentile]
  norm_num [pySorted, List.insertionSort, List.orderedInsert, pyIndex]
  all_goals simp

example : summarize [] = ⟨0, none, none, none, none, none⟩ := rfl

/-! ## Facts about the numeric helpers -/

theorem pyRoundInt_mono {a b : ℚ} (hab : a ≤ b) : pyRoundInt a ≤ pyRoundInt b := by
  have hf : ⌊a⌋ ≤ ⌊b⌋ := Int.floor_le_floor hab
  rcases lt_or_eq_of_le hf with hlt | heq
  · simp only [pyRoundInt]
    split_ifs <;> omega
  · have hcast : (⌊a⌋ : ℚ) = (⌊b⌋ : ℚ) := by exact_mod_cast heq
    have hr : a - (⌊a⌋ : ℚ) ≤ b - (⌊b⌋ : ℚ) := by linarith
    simp only [pyRoundInt]
    split_ifs with h1 h2 h3 h4 h5 h6 h7 h8 h9 h10 h11 <;>
      first
        | omega
        | (exfalso; push_neg at *; try rw [heq] at *;
           first | linarith | exact absurd ‹Even ⌊b⌋› ‹¬Even ⌊b⌋›)

theorem round2_mono {a b : ℚ} (hab : a ≤ b) : round2 a ≤ round2 b := by
  have h := pyRoundInt_mono (mul_le_mul_of_nonneg_right hab (by norm_num : (0:ℚ) ≤ 100))
  have h2 : (pyRoundInt (a * 100) : ℚ) ≤ (pyRoundInt (b * 100) : ℚ) := by exact_mod_cast h
  unfold round2
  linarith

theorem pyInt_eq_floor {q : ℚ} (h : 0 ≤ q) : pyInt q = ⌊q⌋ := by
  unfold pyInt
  rw [if_neg (not_lt.mpr h)]

/-- `sget xs i` is `xs[i]` with default `0`; `percentile`'s subscripts are
shown to stay in range, where `sget` agrees with `List.get`. -/
def sget (xs : List ℚ) (i : ℕ) : ℚ := xs.getD i 0

theorem sget_eq_get (xs : List ℚ) (i : ℕ) (h : i < xs.length) :
    sget xs i = xs.get ⟨i, h⟩ := by
  rw [sget, List.getD_eq_getElem?_getD, List.getElem?_eq_getElem h]
  rfl

theorem pyIndex_eq_sget (xs : List ℚ) (i : ℤ) (h0 : 0 ≤ i) (hn : i.toNat < xs.length) :
    pyIndex xs i = some (sget xs i.toNat) := by
  unfold pyIndex
  rw [if_neg (not_lt.mpr h0), if_neg (not_lt.mpr h0), List.get?_eq_get hn,
    sget_eq_get xs i.toNat hn]

theorem sget_mono {xs : List ℚ} (hs : xs.Sorted (· ≤ ·)) {i j : ℕ}
    (hij : i ≤ j) (hj : j < xs.length) : sget xs i ≤ sget xs j := by
  have hi : i < xs.length := lt_of_le_of_lt hij hj
  rw [sget_eq_get xs i hi, sget_eq_get xs j hj]
  exact hs.rel_get_of_le hij

theorem sget_mem {xs : List ℚ} {i : ℕ} (h : i < xs.length) : sget xs i ∈ xs := by
  rw [sget_eq_get xs i h]
  exact xs.get_mem i h

theorem foldl_min_spec (xs : List ℚ) (x : ℚ) :
    xs.foldl min x ∈ x :: xs ∧ ∀ y ∈ x :: xs, xs.foldl min x ≤ y := by
  induction xs generalizing x with
  | nil => simp
  | cons z zs ih =>
    have h := ih (min x z)
    refine ⟨?_, ?_⟩
    · have hmem := h.1
      rcases List.mem_cons.mp hmem with hm | hm
      · rcases min_choice x z with hc | hc <;> rw [List.foldl_cons, hm, hc] <;> simp
      · simp [List.foldl_cons, List.mem_cons.mpr (Or.inr (List.mem_cons.mpr (Or.inr hm)))]
    · intro y hy
      rw [List.foldl_cons]
      rcases List.mem_cons.mp hy with hy | hy
      · exact le_trans (h.2 (min x z) (List.mem_cons.mpr (Or.inl rfl))) (by rw [hy]; exact min_le_left _ _)
      rcases List.mem_cons.mp hy with hy | hy
      · exact le_trans (h.2 (min x z) (List.mem_cons.mpr (Or.inl rfl))) (by rw [hy]; exact min_le_right _ _)
      · exact h.2 y (List.mem_cons.mpr (Or.inr hy))

theorem foldl_max_spec (xs : List ℚ) (x : ℚ) :
    xs.foldl max x ∈ x :: xs ∧ ∀ y ∈ x :: xs, y ≤ xs.foldl max x := by
  induction xs generalizing x with
  | nil => simp
  | cons z zs ih =>
    have h := ih (max x z)
    refine ⟨?_, ?_⟩
    · have hmem := h.1
      rcases List.mem_cons.mp hmem with hm | hm
      · rcases max_choice x z with hc | hc <;> rw [List.foldl_cons, hm, hc] <;> simp
      · simp [List.foldl_cons, List.mem_cons.mpr (Or.inr (List.mem_cons.mpr (Or.inr hm)))]
    · intro y hy
      rw [List.foldl_cons]
      rcases List.mem_cons.mp hy with hy | hy
      · exact le_trans (by rw [hy]; exact le_max_left _ _) (h.2 (max x z) (List.mem_cons.mpr (Or.inl rfl)))
      rcases List.mem_cons.mp hy with hy | hy
      · exact le_trans (by rw [hy]; exact le_max_right _ _) (h.2 (max x z) (List.mem_cons.mpr (Or.inl rfl)))
      · exact h.2 y (List.mem_cons.mpr (Or.inr hy))

theorem pySorted_perm (values : List ℚ) : List.Perm (pySorted values) values :=
  List.perm_insertionSort _ values

theorem pySorted_sorted (values : List ℚ) : (pySorted values).Sorted (· ≤ ·) :=
  List.sorted_insertionSort _ values

theorem pySorted_length (values : List ℚ) : (pySorted values).length = values.length :=
  (pySorted_perm values).length_eq

theorem pySorted_ne_nil {values : List ℚ} (h : values ≠ []) : pySorted values ≠ [] := by
  intro hc
  apply h
  have hl := pySorted_length values
  rw [hc] at hl
  exact List.eq_nil_of_length_eq_zero hl.symm

theorem pyMin_eq_sget {values : List ℚ} (h : values ≠ []) :
    pyMin values = some (sget (pySorted values) 0) := by
  obtain ⟨v, vs, rfl⟩ := List.exists_cons_of_ne_nil h
  have hspec := foldl_min_spec vs v
  have hlen : 0 < (pySorted (v :: vs)).length := by
    rw [pySorted_length]; simp
  have hmem0 : sget (pySorted (v :: vs)) 0 ∈ v :: vs :=
    (pySorted_perm (v :: vs)).mem_iff.mp (sget_mem hlen)
  have h1 : vs.foldl min v ≤ sget (pySorted (v :: vs)) 0 := hspec.2 _ hmem0
  have hmemf : vs.foldl min v ∈ pySorted (v :: vs) :=
    (pySorted_perm (v :: vs)).mem_iff.mpr hspec.1
  obtain ⟨⟨i, hi⟩, hig⟩ := List.mem_iff_get.mp hmemf
  have h2 : sget (pySorted (v :: vs)) 0 ≤ vs.foldl min v := by
    rw [← hig, ← sget_eq_get _ _ hi]
    exact sget_mono (pySorted_sorted _) (Nat.zero_le i) hi
  rw [pyMin, le_antisymm h1 h2]

theorem pyMax_eq_sget {values : List ℚ} (h : values ≠ []) :
    pyMax values = some (sget (pySorted values) (values.length - 1)) := by
  obtain ⟨v, vs, rfl⟩ := List.exists_cons_of_ne_nil h
  have hspec := foldl_max_spec vs v
  have hlen : (v :: vs).length - 1 < (pySorted (v :: vs)).length := by
    rw [pySorted_length]; simp
  have hmemL : sget (pySorted (v :: vs)) ((v :: vs).length - 1) ∈ v :: vs :=
    (pySorted_perm (v :: vs)).mem_iff.mp (sget_mem hlen)
  have h1 : sget (pySorted (v :: vs)) ((v :: vs).length - 1) ≤ vs.foldl max v :=
    hspec.2 _ hmemL
  have hmemf : vs.foldl max v ∈ pySorted (v :: vs) :=
    (pySorted_perm (v :: vs)).mem_iff.mpr hspec.1
  obtain ⟨⟨i, hi⟩, hig⟩ := List.mem_iff_get.mp hmemf
  have h2 : vs.foldl max v ≤ sget (pySorted (v :: vs)) ((v :: vs).length - 1) := by
    rw [← hig, ← sget_eq_get _ _ hi]
    refine sget_mono (pySorted_sorted _) ?_ hlen
    have := hi
    rw [pySorted_length] at this
    omega
  rw [pyMax, le_antisymm h2 h1]


/-! ## The interpolation computed by `percentile` -/

/-- The interpolation expression computed by `percentile` on the sorted
list (subscripts read through `sget`; `percentile_eq_val` shows they are
in range whenever `0 ≤ p ≤ 1`). -/
def interpVal (xs : List ℚ) (p : ℚ) : ℚ :=
  let k : ℚ := ((xs.length : ℚ) - 1) * p
  let f : ℤ := ⌊k⌋
  let c : ℤ := min (f + 1) ((xs.length : ℤ) - 1)
  sget xs f.toNat + (sget xs c.toNat - sget xs f.toNat) * (k - (f : ℚ))

theorem interp_facts {xs : List ℚ} (hne : xs ≠ []) {p : ℚ} (h0 : 0 ≤ p) (h1 : p ≤ 1) :
    0 ≤ ⌊((xs.length : ℚ) - 1) * p⌋ ∧
    ⌊((xs.length : ℚ) - 1) * p⌋ ≤
      min (⌊((xs.length : ℚ) - 1) * p⌋ + 1) ((xs.length : ℤ) - 1) ∧
    min (⌊((xs.length : ℚ) - 1) * p⌋ + 1) ((xs.length : ℤ) - 1) ≤ (xs.length : ℤ) - 1 ∧
    ((⌊((xs.length : ℚ) - 1) * p⌋ : ℤ) : ℚ) ≤ ((xs.length : ℚ) - 1) * p ∧
    ((xs.length : ℚ) - 1) * p - ((⌊((xs.length : ℚ) - 1) * p⌋ : ℤ) : ℚ) ≤ 1 := by
  have hlen : 1 ≤ xs.length := List.length_pos.mpr hne
  have hn1 : (0:ℚ) ≤ (xs.length : ℚ) - 1 := by
    have : (1:ℚ) ≤ (xs.length : ℚ) := by exact_mod_cast hlen
    linarith
  have hk0 : 0 ≤ ((xs.length : ℚ) - 1) * p := mul_nonneg hn1 h0
  have hkle : ((xs.length : ℚ) - 1) * p ≤ (xs.length : ℚ) - 1 :=
    mul_le_of_le_one_right hn1 h1
  have hf0 : 0 ≤ ⌊((xs.length : ℚ) - 1) * p⌋ := Int.floor_nonneg.mpr hk0
  have hfle : ⌊((xs.length : ℚ) - 1) * p⌋ ≤ (xs.length : ℤ) - 1 := by
    calc ⌊((xs.length : ℚ) - 1) * p⌋ ≤ ⌊((xs.length : ℚ) - 1)⌋ := Int.floor_le_floor hkle
      _ = (xs.length : ℤ) - 1 := by
          rw [show ((xs.length : ℚ) - 1) = (((xs.length : ℤ) - 1 : ℤ) : ℚ) by push_cast; ring,
            Int.floor_intCast]
  refine ⟨hf0, le_min (by omega) hfle, min_le_right _ _, Int.floor_le _, ?_⟩
  have h := Int.lt_floor_add_one (((xs.length : ℚ) - 1) * p)
  push_cast at h ⊢
  linarith

theorem percentile_eq_val {values : List ℚ} (hne : values ≠ []) {p : ℚ}
    (h0 : 0 ≤ p) (h1 : p ≤ 1) :
    percentile values p = .val (interpVal (pySorted values) p) := by
  have hx : pySorted values ≠ [] := pySorted_ne_nil hne
  have hlen1 : 1 ≤ (pySorted values).length := List.length_pos.mpr hx
  obtain ⟨hf0, hfc, hcn, hfk, hk1⟩ := interp_facts hx h0 h1
  simp only [percentile, if_neg hne]
  by_cases hone : (pySorted values).length = 1
  · rw [if_pos hone]
    obtain ⟨a, ha⟩ := List.length_eq_one.mp hone
    norm_num [interpVal, ha, sget]
  · rw [if_neg hone]
    simp only [interpVal]
    set k : ℚ := (((pySorted values).length : ℚ) - 1) * p with hkdef
    set f : ℤ := ⌊k⌋ with hfdef
    set c : ℤ := min (f + 1) (((pySorted values).length : ℤ) - 1) with hcdef
    have hfn : f.toNat < (pySorted values).length := by omega
    have hc0 : 0 ≤ c := by omega
    have hcn2 : c.toNat < (pySorted values).length := by omega
    rw [pyIndex_eq_sget _ _ hf0 hfn, pyIndex_eq_sget _ _ hc0 hcn2]
    by_cases hfceq : f = c
    · rw [if_pos hfceq]
      show PercResult.val (sget (pySorted values) f.toNat) = _
      rw [← hfceq]
      exact congrArg PercResult.val (by ring)
    · rw [if_neg hfceq]


theorem percentile_nil (p : ℚ) : percentile [] p = .nan := by
  simp [percentile]

theorem percentile_ui_nil (p : ℚ) : percentile_ui [] p = .nan := by
  simp [percentile_ui]

theorem percentile_singleton (v p : ℚ) : percentile [v] p = .val v := by
  have h1 : (pySorted [v]).length = 1 := by rw [pySorted_length]; rfl
  obtain ⟨a, ha⟩ := List.length_eq_one.mp h1
  have hav : a = v := by
    have := (pySorted_perm [v]).mem_iff.mp (by rw [ha]; exact List.mem_singleton_self a)
    simpa using this
  simp [percentile, h1, ha, hav]

theorem percentile_ui_singleton (v p : ℚ) : percentile_ui [v] p = .val v := by
  have h1 : (pySorted [v]).length = 1 := by rw [pySorted_length]; rfl
  obtain ⟨a, ha⟩ := List.length_eq_one.mp h1
  have hav : a = v := by
    have := (pySorted_perm [v]).mem_iff.mp (by rw [ha]; exact List.mem_singleton_self a)
    simpa using this
  simp [percentile_ui, h1, ha, hav]

theorem percentile_zero {values : List ℚ} (hne : values ≠ []) :
    percentile values 0 = .val (sget (pySorted values) 0) := by
  rw [percentile_eq_val hne le_rfl zero_le_one]
  congr 1
  simp [interpVal]

theorem percentile_one {values : List ℚ} (hne : values ≠ []) :
    percentile values 1 = .val (sget (pySorted values) ((pySorted values).length - 1)) := by
  rw [percentile_eq_val hne zero_le_one le_rfl]
  congr 1
  have hlen : 1 ≤ (pySorted values).length := List.length_pos.mpr (pySorted_ne_nil hne)
  simp only [interpVal, mul_one]
  rw [show ((pySorted values).length : ℚ) - 1 = ((((pySorted values).length : ℤ) - 1 : ℤ) : ℚ)
    from by push_cast; ring]
  rw [Int.floor_intCast]
  rw [show min (((pySorted values).length : ℤ) - 1 + 1) (((pySorted values).length : ℤ) - 1)
      = ((pySorted values).length : ℤ) - 1 from by omega]
  rw [show ((((pySorted values).length : ℤ) - 1)).toNat = (pySorted values).length - 1
    from by omega]
  ring

theorem interpVal_bounds {xs : List ℚ} (hs : xs.Sorted (· ≤ ·)) (hne : xs ≠ []) {p : ℚ}
    (h0 : 0 ≤ p) (h1 : p ≤ 1) :
    sget xs 0 ≤ interpVal xs p ∧ interpVal xs p ≤ sget xs (xs.length - 1) := by
  obtain ⟨hf0, hfc, hcn, hfk, hk1⟩ := interp_facts hne h0 h1
  have hlen : 1 ≤ xs.length := List.length_pos.mpr hne
  simp only [interpVal]
  set k : ℚ := ((xs.length : ℚ) - 1) * p with hkdef
  set f : ℤ := ⌊k⌋ with hfdef
  set c : ℤ := min (f + 1) ((xs.length : ℤ) - 1) with hcdef
  have hfn : f.toNat < xs.length := by omega
  have hcn2 : c.toNat < xs.length := by omega
  have hab : sget xs f.toNat ≤ sget xs c.toNat := sget_mono hs (by omega) hcn2
  have h0a : sget xs 0 ≤ sget xs f.toNat := sget_mono hs (Nat.zero_le _) hfn
  have hcl : sget xs c.toNat ≤ sget xs (xs.length - 1) := sget_mono hs (by omega) (by omega)
  have ht0 : 0 ≤ k - (f : ℚ) := by linarith
  constructor
  · nlinarith [mul_nonneg (sub_nonneg.mpr hab) ht0]
  · nlinarith [mul_nonneg (sub_nonneg.mpr hab) (sub_nonneg.mpr hk1)]

theorem interpVal_mono {xs : List ℚ} (hs : xs.Sorted (· ≤ ·)) (hne : xs ≠ []) {p p' : ℚ}
    (h0 : 0 ≤ p) (hpp : p ≤ p') (h1 : p' ≤ 1) :
    interpVal xs p ≤ interpVal xs p' := by
  have h0' : 0 ≤ p' := le_trans h0 hpp
  have h1p : p ≤ 1 := le_trans hpp h1
  obtain ⟨hf0, hfc, hcn, hfk, hk1⟩ := interp_facts hne h0 h1p
  obtain ⟨hf0b, hfcb, hcnb, hfkb, hk1b⟩ := interp_facts hne h0' h1
  have hlen : 1 ≤ xs.length := List.length_pos.mpr hne
  have hn1 : (0:ℚ) ≤ (xs.length : ℚ) - 1 := by
    have h := hlen
    have : (1:ℚ) ≤ (xs.length : ℚ) := by exact_mod_cast h
    linarith
  have hkk : ((xs.length : ℚ) - 1) * p ≤ ((xs.length : ℚ) - 1) * p' :=
    mul_le_mul_of_nonneg_left hpp hn1
  have hff : ⌊((xs.length : ℚ) - 1) * p⌋ ≤ ⌊((xs.length : ℚ) - 1) * p'⌋ :=
    Int.floor_le_floor hkk
  simp only [interpVal]
  set k : ℚ := ((xs.length : ℚ) - 1) * p with hkdef
  set kb : ℚ := ((xs.length : ℚ) - 1) * p' with hkbdef
  set f : ℤ := ⌊k⌋ with hfdef
  set fb : ℤ := ⌊kb⌋ with hfbdef
  set c : ℤ := min (f + 1) ((xs.length : ℤ) - 1) with hcdef
  set cb : ℤ := min (fb + 1) ((xs.length : ℤ) - 1) with hcbdef
  have hfn : f.toNat < xs.length := by omega
  have hcn2 : c.toNat < xs.length := by omega
  have hfbn : fb.toNat < xs.length := by omega
  have hcbn : cb.toNat < xs.length := by omega
  have hab : sget xs f.toNat ≤ sget xs c.toNat := sget_mono hs (by omega) hcn2
  have habb : sget xs fb.toNat ≤ sget xs cb.toNat := sget_mono hs (by omega) hcbn
  rcases eq_or_lt_of_le hff with heq | hlt
  · have hceq : cb = c := by rw [hcbdef, hcdef, ← heq]
    rw [← heq, hceq]
    nlinarith [mul_nonneg (sub_nonneg.mpr hab) (sub_nonneg.mpr hkk)]
  · have hcf : sget xs c.toNat ≤ sget xs fb.toNat := sget_mono hs (by omega) hfbn
    have hv1 : sget xs f.toNat + (sget xs c.toNat - sget xs f.toNat) * (k - (f : ℚ))
        ≤ sget xs c.toNat := by
      nlinarith [mul_nonneg (sub_nonneg.mpr hab) (sub_nonneg.mpr hk1)]
    have hv2 : sget xs fb.toNat
        ≤ sget xs fb.toNat + (sget xs cb.toNat - sget xs fb.toNat) * (kb - (fb : ℚ)) := by
      nlinarith [mul_nonneg (sub_nonneg.mpr habb) (by linarith : (0:ℚ) ≤ kb - (fb : ℚ))]
    linarith

theorem percentile_ui_eq_percentile {values : List ℚ} {p : ℚ} (h0 : 0 ≤ p) :
    percentile_ui values p = percentile values p := by
  by_cases hne : values = []
  · simp [percentile, percentile_ui, hne]
  · have hlen : 1 ≤ (pySorted values).length := List.length_pos.mpr (pySorted_ne_nil hne)
    have hn1 : (0:ℚ) ≤ ((pySorted values).length : ℚ) - 1 := by
      have : (1:ℚ) ≤ ((pySorted values).length : ℚ) := by exact_mod_cast hlen
      linarith
    have hk0 : 0 ≤ (((pySorted values).length : ℚ) - 1) * p := mul_nonneg hn1 h0
    simp only [percentile, percentile_ui, pyInt_eq_floor hk0]


/-- The spec's phrasing of the estimator, for comparison with the code: sort
ascending, compute the rank `k = (n-1)*p`, and linearly interpolate between
the elements at `⌊k⌋` and `⌈k⌉`. -/
def specInterp (xs : List ℚ) (p : ℚ) : ℚ :=
  let k : ℚ := ((xs.length : ℚ) - 1) * p
  sget xs ⌊k⌋.toNat + (sget xs ⌈k⌉.toNat - sget xs ⌊k⌋.toNat) * (k - (⌊k⌋ : ℚ))

theorem interpVal_eq_specInterp {xs : List ℚ} (hne : xs ≠ []) {p : ℚ}
    (h0 : 0 ≤ p) (h1 : p ≤ 1) : interpVal xs p = specInterp xs p := by
  obtain ⟨hf0, hfc, hcn, hfk, hk1⟩ := interp_facts hne h0 h1
  have hlen : 1 ≤ xs.length := List.length_pos.mpr hne
  have hn1 : (0:ℚ) ≤ (xs.length : ℚ) - 1 := by
    have : (1:ℚ) ≤ (xs.length : ℚ) := by exact_mod_cast hlen
    linarith
  have hkle : ((xs.length : ℚ) - 1) * p ≤ (xs.length : ℚ) - 1 :=
    mul_le_of_le_one_right hn1 h1
  simp only [interpVal, specInterp]
  set k : ℚ := ((xs.length : ℚ) - 1) * p with hkdef
  set f : ℤ := ⌊k⌋ with hfdef
  by_cases hint : (f : ℚ) = k
  · have hceil : ⌈k⌉ = f := by rw [← hint, Int.ceil_intCast]
    have hzero : k - (f : ℚ) = 0 := by rw [← hint]; ring
    rw [hceil, hzero]
    ring
  · have hceil : ⌈k⌉ = f + 1 := by
      have h1c := Int.ceil_le_floor_add_one k
      have h2c := Int.floor_le_ceil k
      have h3c := Int.le_ceil k
      rw [← hfdef] at h1c h2c
      by_contra hc
      have hcf : ⌈k⌉ = f := by omega
      rw [hcf] at h3c
      exact hint (le_antisymm hfk h3c)
    have hmin : min (f + 1) ((xs.length : ℤ) - 1) = f + 1 := by
      have hfk2 : (f : ℚ) < k := lt_of_le_of_ne hfk hint
      have hq : (f : ℚ) < (((xs.length : ℤ) - 1 : ℤ) : ℚ) := by push_cast; linarith
      have hz : f < (xs.length : ℤ) - 1 := by exact_mod_cast hq
      omega
    rw [hceil, hmin]

/-- C7 (`functional_correctness`): `percentile(values, p)` satisfies its
definitional contract: on the empty list it returns not-a-number for every
`p`; on a single-element list `[v]` it returns `v` for every `p`; otherwise
it sorts the values ascending, computes the rank `k = (n-1)*p`, and linearly
interpolates between the elements at `⌊k⌋` and `⌈k⌉`; in particular, on
every non-empty list, `percentile values 0` equals the minimum and
`percentile values 1` equals the maximum.  Both copies of the function
(`src/perf_runner.py` and `src/measure_ui.py`) satisfy the contract. -/
theorem c7_percentile_contract :
    (∀ p : ℚ, percentile [] p = .nan ∧ percentile_ui [] p = .nan) ∧
    (∀ v p : ℚ, percentile [v] p = .val v ∧ percentile_ui [v] p = .val v) ∧
    (∀ (values : List ℚ) (p : ℚ), values ≠ [] → 0 ≤ p → p ≤ 1 →
      percentile values p = .val (specInterp (pySorted values) p) ∧
      percentile_ui values p = .val (specInterp (pySorted values) p)) ∧
    (∀ values : List ℚ, values ≠ [] →
      (∃ m, pyMin values = some m ∧ percentile values 0 = .val m ∧
        percentile_ui values 0 = .val m) ∧
      (∃ M, pyMax values = some M ∧ percentile values 1 = .val M ∧
        percentile_ui values 1 = .val M)) := by
  refine ⟨fun p => ⟨percentile_nil p, percentile_ui_nil p⟩,
    fun v p => ⟨percentile_singleton v p, percentile_ui_singleton v p⟩,
    fun values p hne h0 h1 => ?_, fun values hne => ?_⟩
  · have h := percentile_eq_val hne h0 h1
    rw [interpVal_eq_specInterp (pySorted_ne_nil hne) h0 h1] at h
    exact ⟨h, by rw [percentile_ui_eq_percentile h0]; exact h⟩
  · constructor
    · exact ⟨sget (pySorted values) 0, pyMin_eq_sget hne, percentile_zero hne,
        by rw [percentile_ui_eq_percentile le_rfl]; exact percentile_zero hne⟩
    · refine ⟨sget (pySorted values) (values.length - 1), pyMax_eq_sget hne, ?_, ?_⟩
      · rw [percentile_one hne, pySorted_length]
      · rw [percentile_ui_eq_percentile zero_le_one, percentile_one hne, pySorted_length]

theorem c7_percentile_contract_witness :
    ([3, 1, 2] : List ℚ) ≠ [] ∧
    ((∃ m, pyMin [3, 1, 2] = some m ∧ percentile [3, 1, 2] 0 = .val m ∧
        percentile_ui [3, 1, 2] 0 = .val m) ∧
      (∃ M, pyMax [3, 1, 2] = some M ∧ percentile [3, 1, 2] 1 = .val M ∧
        percentile_ui [3, 1, 2] 1 = .val M)) :=
  ⟨by simp, c7_percentile_contract.2.2.2 [3, 1, 2] (by simp)⟩

/-- C10 (`safety`): under the precondition that `values` is non-empty and
`0 ≤ p ≤ 1`, every list index computed inside `percentile` is in bounds
(`0 ≤ ⌊k⌋ ≤ c ≤ n-1` with `c = min (⌊k⌋+1) (n-1)`), so `percentile` is total
and never raises an out-of-range error; the guarantee does not extend to
`p > 1`, where the computed lower index exceeds the last position
(witnessed at `percentile [1,2] 2`). -/
theorem c10_percentile_index_safety :
    (∀ (values : List ℚ) (p : ℚ), values ≠ [] → 0 ≤ p → p ≤ 1 →
      (∃ q, percentile values p = .val q ∧ percentile_ui values p = .val q) ∧
      0 ≤ ⌊((values.length : ℚ) - 1) * p⌋ ∧
      ⌊((values.length : ℚ) - 1) * p⌋ ≤
        min (⌊((values.length : ℚ) - 1) * p⌋ + 1) ((values.length : ℤ) - 1) ∧
      min (⌊((values.length : ℚ) - 1) * p⌋ + 1) ((values.length : ℤ) - 1) ≤
        (values.length : ℤ) - 1) ∧
    percentile [1, 2] 2 = .indexError ∧ percentile_ui [1, 2] 2 = .indexError := by
  refine ⟨fun values p hne h0 h1 => ?_, ?_, ?_⟩
  · have hfacts := interp_facts (pySorted_ne_nil hne) h0 h1
    rw [pySorted_length] at hfacts
    exact ⟨⟨interpVal (pySorted values) p, percentile_eq_val hne h0 h1,
        by rw [percentile_ui_eq_percentile h0]; exact percentile_eq_val hne h0 h1⟩,
      hfacts.1, hfacts.2.1, hfacts.2.2.1⟩
  · rw [percentile]
    norm_num [pySorted, List.insertionSort, List.orderedInsert, pyIndex]
    all_goals simp
  · rw [percentile_ui]
    norm_num [pySorted, List.insertionSort, List.orderedInsert, pyIndex, pyInt]
    all_goals simp

theorem c10_percentile_index_safety_witness :
    ([1, 2] : List ℚ) ≠ [] ∧ (0:ℚ) ≤ 1/2 ∧ (1:ℚ)/2 ≤ 1 ∧
    ((∃ q, percentile [1, 2] (1/2) = .val q ∧ percentile_ui [1, 2] (1/2) = .val q) ∧
      0 ≤ ⌊((([1, 2] : List ℚ).length : ℚ) - 1) * (1/2)⌋ ∧
      ⌊((([1, 2] : List ℚ).length : ℚ) - 1) * (1/2)⌋ ≤
        min (⌊((([1, 2] : List ℚ).length : ℚ) - 1) * (1/2)⌋ + 1)
          ((([1, 2] : List ℚ).length : ℤ) - 1) ∧
      min (⌊((([1, 2] : List ℚ).length : ℚ) - 1) * (1/2)⌋ + 1)
          ((([1, 2] : List ℚ).length : ℤ) - 1) ≤ (([1, 2] : List ℚ).length : ℤ) - 1) :=
  ⟨by simp, by norm_num, by norm_num,
    c10_percentile_index_safety.1 [1, 2] (1/2) (by simp) (by norm_num) (by norm_num)⟩


/-- C8 (`functional_correctness`): `summarize(values)`: for every non-empty
list, the record has `n` equal to the length, each of mean, p50, p95, min,
max rounded to 2 decimal places, and the rounded fields satisfy
`min ≤ p50 ≤ p95 ≤ max`; for the empty list it returns a record carrying
only the zero count and omitting every other field. -/
theorem c8_summarize_contract :
    (∀ values : List ℚ, values ≠ [] →
      (summarize values).n = values.length ∧
      (summarize values).avg_ms = some (round2 (values.sum / (values.length : ℚ))) ∧
      (∃ p50 p95 mn mx,
        percentile values (1/2) = .val p50 ∧ percentile values (19/20) = .val p95 ∧
        pyMin values = some mn ∧ pyMax values = some mx ∧
        (summarize values).p50_ms = some (round2 p50) ∧
        (summarize values).p95_ms = some (round2 p95) ∧
        (summarize values).min_ms = some (round2 mn) ∧
        (summarize values).max_ms = some (round2 mx) ∧
        round2 mn ≤ round2 p50 ∧ round2 p50 ≤ round2 p95 ∧ round2 p95 ≤ round2 mx)) ∧
    summarize [] = ⟨0, none, none, none, none, none⟩ := by
  refine ⟨fun values hne => ?_, rfl⟩
  have hx := pySorted_ne_nil hne
  have hs := pySorted_sorted values
  have h50 := percentile_eq_val hne (by norm_num : (0:ℚ) ≤ 1/2) (by norm_num : (1:ℚ)/2 ≤ 1)
  have h95 := percentile_eq_val hne (by norm_num : (0:ℚ) ≤ 19/20)
    (by norm_num : (19:ℚ)/20 ≤ 1)
  have hmn := pyMin_eq_sget hne
  have hmx := pyMax_eq_sget hne
  have hb50 := interpVal_bounds hs hx (by norm_num : (0:ℚ) ≤ 1/2)
    (by norm_num : (1:ℚ)/2 ≤ 1)
  have hb95 := interpVal_bounds hs hx (by norm_num : (0:ℚ) ≤ 19/20)
    (by norm_num : (19:ℚ)/20 ≤ 1)
  have hmono := interpVal_mono hs hx (by norm_num : (0:ℚ) ≤ 1/2)
    (by norm_num : (1:ℚ)/2 ≤ 19/20) (by norm_num : (19:ℚ)/20 ≤ 1)
  rw [pySorted_length] at hb95
  refine ⟨?_, ?_, interpVal (pySorted values) (1/2), interpVal (pySorted values) (19/20),
    sget (pySorted values) 0, sget (pySorted values) (values.length - 1),
    h50, h95, hmn, hmx, ?_, ?_, ?_, ?_,
    round2_mono hb50.1, round2_mono hmono, round2_mono hb95.2⟩
  · rw [summarize, if_neg hne]
  · rw [summarize, if_neg hne]
  · rw [summarize, if_neg hne]
    show (percentile values (1/2)).toVal.map round2 = _
    rw [h50]
    rfl
  · rw [summarize, if_neg hne]
    show (percentile values (19/20)).toVal.map round2 = _
    rw [h95]
    rfl
  · rw [summarize, if_neg hne]
    show (pyMin values).map round2 = _
    rw [hmn]
    rfl
  · rw [summarize, if_neg hne]
    show (pyMax values).map round2 = _
    rw [hmx]
    rfl

theorem c8_summarize_contract_witness :
    ([1, 2, 3] : List ℚ) ≠ [] ∧ (summarize [1, 2, 3]).n = ([1, 2, 3] : List ℚ).length :=
  ⟨by simp, (c8_summarize_contract.1 [1, 2, 3] (by simp)).1⟩


/-! ## Data model: triggers, targets, measurements -/

/-- A trigger instruction: the `"type"` string plus the fields the trigger
executor reads; `none` models an absent key. -/
structure TriggerDict where
  type : Option String := none
  selector : Option String := none
  text : Option String := none
  key : Option String := none
  ms : Option ℤ := none
  wait_until : Option String := none
  deriving DecidableEq, Repr

/-- A target instruction; `wait_any` carries its sub-target list, making the
type recursive.  `none` models an absent key. -/
inductive Target where
  | mk (type : Option String) (selector : Option String) (ms : Option ℤ)
      (stable_ms : Option ℤ) (poll_ms : Option ℤ) (timeout_ms : Option ℤ)
      (slice_ms : Option ℤ) (poll_gap_ms : Option ℤ)
      (targets : Option (List Target)) : Target

def Target.type : Target → Option String | .mk t _ _ _ _ _ _ _ _ => t
def Target.selector : Target → Option String | .mk _ s _ _ _ _ _ _ _ => s
def Target.ms : Target → Option ℤ | .mk _ _ m _ _ _ _ _ _ => m
def Target.stable_ms : Target → Option ℤ | .mk _ _ _ sm _ _ _ _ _ => sm
def Target.poll_ms : Target → Option ℤ | .mk _ _ _ _ pm _ _ _ _ => pm
def Target.timeout_ms : Target → Option ℤ | .mk _ _ _ _ _ tm _ _ _ => tm
def Target.slice_ms : Target → Option ℤ | .mk _ _ _ _ _ _ sl _ _ => sl
def Target.poll_gap_ms : Target → Option ℤ | .mk _ _ _ _ _ _ _ pg _ => pg
def Target.targets : Target → Option (List Target) | .mk _ _ _ _ _ _ _ _ ts => ts

/-- The empty target dictionary (`m.get("target", {})`). -/
def emptyTarget : Target := .mk none none none none none none none none none

/-- A Python exception: class name and `str(e)`. -/
structure PyErr where
  ty : String
  msg : String
  deriving DecidableEq, Repr

/-- The structural snapshot taken inside the `wait_stable` page function:
element count, content height, content width, document readiness stage. -/
structure Snap where
  nodes : ℕ
  h : ℚ
  w : ℚ
  rs : String
  deriving DecidableEq, Repr

/-- A primitive page operation delegated to the browser collaborator. -/
inductive PrimOp where
  | goto (url : String) (waitUntil : String)
  | click (selector : String)
  | fill (selector : String) (text : String)
  | press (key : String)
  | waitFor (selector : String) (state : String)
  deriving DecidableEq, Repr

/-- The abstract document-interaction environment: for each primitive
operation started at a given time with a given timeout, the outcome
(`none` = success) and the elapsed time; plus the time-indexed structural
snapshot of the document observed by `wait_stable`. -/
structure Env where
  run : PrimOp → ℚ → ℤ → Option PyErr × ℚ
  snap : ℚ → Snap

/-- `pythonic f-string of a possibly-missing string value. -/
def pyShowOpt : Option String → String
  | none => "None"
  | some s => s

/-! ## TriggerExecutor -/

/-- `do_trigger` from `src/perf_runner.py`: returns the exception (if any)
and the end time. -/
def doTrigger (env : Env) (trig : TriggerDict) (base_url : String) (now : ℚ)
    (timeoutMs : ℤ) : Option PyErr × ℚ :=
  match trig.type with
  | some "goto" =>
      let r := env.run (.goto base_url (trig.wait_until.getD "domcontentloaded")) now timeoutMs
      (r.1, now + r.2)
  | some "click" =>
      match trig.selector with
      | none => (some ⟨"KeyError", "'selector'"⟩, now)
      | some sel =>
          let r := env.run (.click sel) now timeoutMs
          (r.1, now + r.2)
  | some "fill" =>
      match trig.selector with
      | none => (some ⟨"KeyError", "'selector'"⟩, now)
      | some sel =>
          let r := env.run (.fill sel (trig.text.getD "")) now timeoutMs
          (r.1, now + r.2)
  | some "press" =>
      match trig.key with
      | none => (some ⟨"KeyError", "'key'"⟩, now)
      | some k =>
          let r := env.run (.press k) now timeoutMs
          (r.1, now + r.2)
  | some "sleep" => (none, now + ((trig.ms.getD 0 : ℤ) : ℚ))
  | t => (some ⟨"ValueError", "Unsupported trigger type: " ++ pyShowOpt t⟩, now)

/-! ## TargetExecutor -/

/-- The `state_map` dictionary in `do_target`. -/
def stateMap : String → Option String
  | "wait_visible" => some "visible"
  | "wait_hidden" => some "hidden"
  | "wait_attached" => some "attached"
  | "wait_detached" => some "detached"
  | _ => none

/-- Result of a trigger/target phase: success (with the `wait_any` winner
details when present), a raised exception, or fuel exhaustion of the model
(never produced when enough fuel is supplied). -/
inductive TRes where
  | ok (details : Option (ℕ × Target)) : TRes
  | err (e : PyErr) : TRes
  | fuelOut : TRes

/-- Outcome of the polling loop inside the `wait_stable` page function,
counted in poll ticks. -/
inductive StableOut where
  | success (k : ℕ) : StableOut
  | more (k : ℕ) : StableOut
  deriving DecidableEq, Repr

/-- The `async` polling loop of `_do_wait_stable`'s page function:
`snapSeq n` is the snapshot observed `n` polls after the start, `prev` the
stored snapshot, `lastChange` the tick of the last observed change, `k` the
current tick.  Each iteration sleeps one poll, takes the next snapshot,
resets the debounce timer on any field change, and returns once
`stable_ms` has elapsed without an observed change. -/
def stableLoop (snapSeq : ℕ → Snap) (stableMs pollMs : ℚ) :
    ℕ → Snap → ℕ → ℕ → StableOut
  | 0, _, _, k => .more k
  | fuel + 1, prev, lastChange, k =>
      let cur := snapSeq (k + 1)
      let changed := cur ≠ prev
      let lastChange2 := if changed then k + 1 else lastChange
      let prev2 := if changed then cur else prev
      if stableMs ≤ ((k + 1 : ℕ) : ℚ) * pollMs - (lastChange2 : ℚ) * pollMs then
        .success (k + 1)
      else stableLoop snapSeq stableMs pollMs fuel prev2 lastChange2 (k + 1)

/-- `_do_wait_stable`: runs the polling page function through
`page.wait_for_function`, whose own deadline converts a non-returning
function into a playwright `TimeoutError` after `timeoutMs`. -/
def doWaitStable (env : Env) (stableMs pollMs timeoutMs : ℤ) (now : ℚ) (fuel : ℕ) :
    TRes × ℚ :=
  let snapSeq : ℕ → Snap := fun n => env.snap (now + (n : ℚ) * (pollMs : ℚ))
  match stableLoop snapSeq (stableMs : ℚ) (pollMs : ℚ) fuel (snapSeq 0) 0 0 with
  | .success k =>
      if ((k : ℚ)) * (pollMs : ℚ) ≤ (timeoutMs : ℚ) then
        (.ok none, now + ((k : ℚ)) * (pollMs : ℚ))
      else
        (.err ⟨"TimeoutError", "Timeout " ++ toString timeoutMs ++ "ms exceeded."⟩,
          now + (timeoutMs : ℚ))
  | .more k =>
      if (timeoutMs : ℚ) ≤ ((k : ℚ)) * (pollMs : ℚ) then
        (.err ⟨"TimeoutError", "Timeout " ++ toString timeoutMs ++ "ms exceeded."⟩,
          now + (timeoutMs : ℚ))
      else (.fuelOut, now + ((k : ℚ)) * (pollMs : ℚ))

/-- A record of one `wait_any` sub-target attempt: declared index,
sub-target definition, start time, the bounded timeout passed to the
attempt, and whether the attempt succeeded. -/
structure Attempt where
  idx : ℕ
  sub : Target
  time : ℚ
  timeout : ℤ
  ok : Bool

/-- Python `last_errs[-6:]`. -/
def lastN (n : ℕ) (l : List String) : List String := l.drop (l.length - n)

/-- The message of the `TimeoutError` raised by `wait_any`. -/
def waitAnyMsg (errs : List String) : String :=
  "wait_any timed out. Recent errors: " ++ String.intercalate " | " (lastN 6 errs)

/-- The error string recorded for a failed sub-target attempt
(`f"[{idx}] {type(e).__name__}: {e}"`). -/
def subErrStr (idx : ℕ) (e : PyErr) : String :=
  "[" ++ toString idx ++ "] " ++ e.ty ++ ": " ++ e.msg

/-- Execution states of the target executor: a target proper, the
`wait_any` while-loop, and the for-loop over sub-targets within a round. -/
inductive Job where
  | tgt (t : Target) (now : ℚ) (timeoutMs : ℤ) : Job
  | anyLoop (ts : List Target) (deadline : ℚ) (slice gap : ℤ)
      (errs : List String) (now : ℚ) : Job
  | anyRound (ts : List Target) (idx : ℕ) (deadline : ℚ) (slice gap : ℤ)
      (errs : List String) (now : ℚ) : Job

def Job.time : Job → ℚ
  | .tgt _ n _ => n
  | .anyLoop _ _ _ _ _ n => n
  | .anyRound _ _ _ _ _ _ n => n

/-- Intermediate outcome: a finished target (`done`) or a `wait_any` round
that ended with no winner (`roundEnd`, carrying the accumulated error list
and the time reached). -/
inductive Out where
  | done (r : TRes) (t : ℚ) : Out
  | roundEnd (errs : List String) (t : ℚ) : Out

/-- The fuelled interpreter for `do_target` (`src/perf_runner.py`): the
`wait_visible|hidden|attached|detached` states, `sleep`, `wait_stable` and
the recursive `wait_any` racing combinator, together with the trace of
`wait_any` sub-target attempts. -/
def exec (env : Env) : ℕ → Job → Out × List Attempt
  | 0, j => (.done .fuelOut j.time, [])
  | fuel + 1, .tgt t now timeoutMs =>
      match t.type with
      | some s =>
          match stateMap s with
          | some st =>
              match t.selector with
              | none => (.done (.err ⟨"KeyError", "'selector'"⟩) now, [])
              | some sel =>
                  let r := env.run (.waitFor sel st) now timeoutMs
                  match r.1 with
                  | none => (.done (.ok none) (now + r.2), [])
                  | some e => (.done (.err e) (now + r.2), [])
          | none =>
              if s = "sleep" then
                (.done (.ok none) (now + ((t.ms.getD 0 : ℤ) : ℚ)), [])
              else if s = "wait_stable" then
                let r := doWaitStable env (t.stable_ms.getD 600) (t.poll_ms.getD 100)
                  timeoutMs now fuel
                (.done r.1 r.2, [])
              else if s = "wait_any" then
                match t.targets with
                | none =>
                    (.done (.err ⟨"ValueError",
                      "wait_any requires a non-empty 'targets' list"⟩) now, [])
                | some [] =>
                    (.done (.err ⟨"ValueError",
                      "wait_any requires a non-empty 'targets' list"⟩) now, [])
                | some ts =>
                    exec env fuel (.anyLoop ts (now + ((t.timeout_ms.getD timeoutMs : ℤ) : ℚ))
                      (t.slice_ms.getD 400) (t.poll_gap_ms.getD 50) [] now)
              else
                (.done (.err ⟨"ValueError", "Unsupported target type: " ++ s⟩) now, [])
      | none =>
          (.done (.err ⟨"ValueError", "Unsupported target type: None"⟩) now, [])
  | fuel + 1, .anyLoop ts deadline slice gap errs now =>
      if now < deadline then
        match exec env fuel (.anyRound ts 0 deadline slice gap errs now) with
        | (.roundEnd errs2 t2, tr) =>
            match exec env fuel (.anyLoop ts deadline slice gap errs2 (t2 + (gap : ℚ))) with
            | (o, tr2) => (o, tr ++ tr2)
        | (.done r t2, tr) => (.done r t2, tr)
      else
        (.done (.err ⟨"TimeoutError", waitAnyMsg errs⟩) now, [])
  | fuel + 1, .anyRound ts idx deadline slice gap errs now =>
      match ts with
      | [] => (.roundEnd errs now, [])
      | sub :: rest =>
          let remaining : ℤ := ⌊max 0 (deadline - now)⌋
          if remaining ≤ 0 then (.roundEnd errs now, [])
          else
            let perTry : ℤ := min slice remaining
            match exec env fuel (.tgt sub now perTry) with
            | (.done (.ok _) t2, tr) =>
                (.done (.ok (some (idx, sub))) t2, tr ++ [⟨idx, sub, now, perTry, true⟩])
            | (.done (.err e) t2, tr) =>
                match exec env fuel (.anyRound rest (idx + 1) deadline slice gap
                    (errs ++ [subErrStr idx e]) t2) with
                | (o, tr2) => (o, (tr ++ [⟨idx, sub, now, perTry, false⟩]) ++ tr2)
            | (.done .fuelOut t2, tr) => (.done .fuelOut t2, tr)
            | (.roundEnd _ t2, tr) => (.done .fuelOut t2, tr)

/-- `do_target`: runs a target, returning the result, the end time, and the
trace of `wait_any` sub-target attempts. -/
def doTarget (env : Env) (fuel : ℕ) (t : Target) (now : ℚ) (timeoutMs : ℤ) :
    TRes × ℚ × List Attempt :=
  match exec env fuel (.tgt t now timeoutMs) with
  | (.done r t2, tr) => (r, t2, tr)
  | (.roundEnd _ t2, tr) => (.fuelOut, t2, tr)

/-! ## ScenarioRunner: `run_once` -/

/-- One measurement declaration. -/
structure Measurement where
  name : Option String := none
  trigger : TriggerDict := {}
  target : Target := emptyTarget

/-- The scenario fields `run_once` reads. -/
structure Cfg where
  url : String
  timeout_ms : Option ℤ := none
  measurements : List Measurement := []

/-- `OneMeasurementResult` from `src/perf_runner.py`. -/
structure OneMeasurementResult where
  name : String
  ok : Bool
  duration_ms : ℚ
  error : Option String := none
  details : Option (ℕ × Target) := none

/-- The body of the `for m in measurements` loop in `run_once`: the
try/except around trigger and target, recording the elapsed duration and
converting any exception into a failed result. -/
def runMeas (env : Env) (fuel : ℕ) (url : String) (timeoutMs : ℤ) (m : Measurement)
    (t0 : ℚ) : Option (OneMeasurementResult × ℚ) :=
  match doTrigger env m.trigger url t0 timeoutMs with
  | (some e, t1) =>
      some (⟨m.name.getD "unnamed", false, round2 (t1 - t0), some e.msg, none⟩, t1)
  | (none, tmid) =>
      match doTarget env fuel m.target tmid timeoutMs with
      | (.ok d, t1, _) =>
          some (⟨m.name.getD "unnamed", true, round2 (t1 - t0), none, d⟩, t1)
      | (.err e, t1, _) =>
          some (⟨m.name.getD "unnamed", false, round2 (t1 - t0), some e.msg, none⟩, t1)
      | (.fuelOut, _, _) => none

/-- The measurement loop of `run_once` (`none` marks model fuel
exhaustion only). -/
def runOnceGo (env : Env) (fuel : ℕ) (url : String) (timeoutMs : ℤ) :
    List Measurement → ℚ → Option (List OneMeasurementResult × ℚ)
  | [], now => some ([], now)
  | m :: rest, now =>
      match runMeas env fuel url timeoutMs m now with
      | none => none
      | some (r, t1) =>
          match runOnceGo env fuel url timeoutMs rest t1 with
          | none => none
          | some (rs, t2) => some (r :: rs, t2)

/-- `run_once` from `src/perf_runner.py`. -/
def runOnce (env : Env) (fuel : ℕ) (cfg : Cfg) (now : ℚ) :
    Option (List OneMeasurementResult × ℚ) :=
  runOnceGo env fuel cfg.url (cfg.timeout_ms.getD 10000) cfg.measurements now

/-! ## RunAggregator: the collection loops in `main` -/

/-- The per-name aggregation loop in `main`: successful durations per name
(`by_name`) and failure counts per name (`errors`). -/
def collect : List OneMeasurementResult → (String → List ℚ) × (String → ℕ)
  | [] => (fun _ => [], fun _ => 0)
  | m :: rest =>
      let acc := collect rest
      if m.ok then
        (fun n => if n = m.name then m.duration_ms :: acc.1 n else acc.1 n, acc.2)
      else
        (acc.1, fun n => if n = m.name then acc.2 n + 1 else acc.2 n)

/-- The `stats` entry of the summary for a given name: present exactly when
`by_name` holds at least one successful duration for that name. -/
def statsMap (ms : List OneMeasurementResult) (name : String) : Option Summary :=
  if (collect ms).1 name = [] then none else some (summarize ((collect ms).1 name))


/-! ## Aggregation facts (claim C5) -/

theorem collect_fst (ms : List OneMeasurementResult) (name : String) :
    (collect ms).1 name =
      (ms.filter (fun m => m.ok && m.name == name)).map OneMeasurementResult.duration_ms := by
  induction ms with
  | nil => rfl
  | cons m rest ih =>
    by_cases hok : m.ok
    · by_cases hname : name = m.name
      · subst hname
        simp [collect, hok, List.filter_cons, ih]
      · have hname2 : ¬(m.name == name) = true := by
          simp [beq_iff_eq]
          exact fun hc => hname hc.symm
        simp [collect, hok, hname, List.filter_cons, hname2, ih]
    · have hok2 : ¬(m.ok && m.name == name) = true := by simp [hok]
      simp [collect, hok, List.filter_cons, hok2, ih]

theorem collect_snd (ms : List OneMeasurementResult) (name : String) :
    (collect ms).2 name = (ms.filter (fun m => !m.ok && m.name == name)).length := by
  induction ms with
  | nil => rfl
  | cons m rest ih =>
    by_cases hok : m.ok
    · have hok2 : ¬(!m.ok && m.name == name) = true := by simp [hok]
      simp [collect, hok, List.filter_cons, hok2, ih]
    · by_cases hname : name = m.name
      · subst hname
        simp [collect, hok, List.filter_cons, ih]
      · have hname2 : ¬(m.name == name) = true := by
          simp [beq_iff_eq]
          exact fun hc => hname hc.symm
        simp [collect, hok, hname, List.filter_cons, hname2, ih]

/-- C5 (`invariants`): the summary keeps the per-name duration statistics
and the per-name failure counts disjoint in content: the `by_name` list for
a name consists exactly of the durations of its successful results (failed
measurements never contribute), a name has a `stats` entry only if it has
at least one successful result, and a name that fails in every run has no
`stats` entry while its `errors` count equals its total failure count. -/
theorem c5_stats_errors_partition :
    ∀ (runs : List (List OneMeasurementResult)) (name : String),
      (collect runs.join).1 name =
        (runs.join.filter (fun m => m.ok && m.name == name)).map
          OneMeasurementResult.duration_ms ∧
      (collect runs.join).2 name =
        (runs.join.filter (fun m => !m.ok && m.name == name)).length ∧
      (statsMap runs.join name ≠ none →
        ∃ m ∈ runs.join, m.ok = true ∧ m.name = name) ∧
      ((∀ m ∈ runs.join, m.name = name → m.ok = false) →
        statsMap runs.join name = none ∧
        (collect runs.join).2 name =
          (runs.join.filter (fun m => m.name == name)).length) := by
  intro runs name
  refine ⟨collect_fst _ _, collect_snd _ _, ?_, ?_⟩
  · intro hne
    rw [statsMap] at hne
    by_cases h : (collect runs.join).1 name = []
    · rw [if_pos h] at hne
      exact absurd rfl hne
    · rw [collect_fst] at h
      have hfil : runs.join.filter (fun m => m.ok && m.name == name) ≠ [] := by
        intro hc
        rw [hc] at h
        exact h rfl
      obtain ⟨m, hm⟩ := List.exists_mem_of_ne_nil _ hfil
      have := List.mem_filter.mp hm
      refine ⟨m, this.1, ?_, ?_⟩
      · have hb := this.2
        simp only [Bool.and_eq_true] at hb
        exact hb.1
      · have hb := this.2
        simp only [Bool.and_eq_true, beq_iff_eq] at hb
        exact hb.2
  · intro hall
    have h1 : runs.join.filter (fun m => m.ok && m.name == name) = [] := by
      rw [List.filter_eq_nil_iff]
      intro m hm
      simp only [Bool.and_eq_true, beq_iff_eq, not_and]
      intro hok hbn
      rw [hall m hm hbn] at hok
      cases hok
    constructor
    · rw [statsMap, if_pos (by rw [collect_fst, h1]; rfl)]
    · rw [collect_snd]
      congr 1
      apply List.filter_congr
      intro m hm
      by_cases hbn : m.name = name
      · simp [hbn, hall m hm hbn]
      · simp [hbn]

theorem c5_stats_errors_partition_witness :
    (∀ m ∈ ([[⟨"m1", false, 5, some "boom", none⟩,
              ⟨"m2", true, 7, none, none⟩]] :
        List (List OneMeasurementResult)).join, m.name = "m1" → m.ok = false) ∧
    (statsMap ([[⟨"m1", false, 5, some "boom", none⟩,
                 ⟨"m2", true, 7, none, none⟩]] :
        List (List OneMeasurementResult)).join "m1" = none ∧
      (collect ([[⟨"m1", false, 5, some "boom", none⟩,
                  ⟨"m2", true, 7, none, none⟩]] :
        List (List OneMeasurementResult)).join).2 "m1" =
        (([[⟨"m1", false, 5, some "boom", none⟩,
            ⟨"m2", true, 7, none, none⟩]] :
        List (List OneMeasurementResult)).join.filter
          (fun m => m.name == "m1")).length) := by
  have hall : ∀ m ∈ ([[⟨"m1", false, 5, some "boom", none⟩,
      ⟨"m2", true, 7, none, none⟩]] :
      List (List OneMeasurementResult)).join, m.name = "m1" → m.ok = false := by
    intro m hm
    have hm2 : m = ⟨"m1", false, 5, some "boom", none⟩ ∨
        m = ⟨"m2", true, 7, none, none⟩ := by simpa using hm
    rcases hm2 with rfl | rfl <;> simp
  exact ⟨hall, (c5_stats_errors_partition
    [[⟨"m1", false, 5, some "boom", none⟩, ⟨"m2", true, 7, none, none⟩]] "m1").2.2.2 hall⟩


/-! ## Measurement boundary (claim C6) -/

theorem runOnceGo_length (env : Env) (fuel : ℕ) (url : String) (tMs : ℤ) :
    ∀ (ms : List Measurement) (t0 : ℚ) (rs : List OneMeasurementResult) (tEnd : ℚ),
      runOnceGo env fuel url tMs ms t0 = some (rs, tEnd) → rs.length = ms.length := by
  intro ms
  induction ms with
  | nil =>
    intro t0 rs tEnd h
    simp only [runOnceGo, Option.some.injEq, Prod.mk.injEq] at h
    rw [← h.1]
    rfl
  | cons m rest ih =>
    intro t0 rs tEnd h
    rw [runOnceGo] at h
    cases hr : runMeas env fuel url tMs m t0 with
    | none => simp [hr] at h
    | some v =>
      obtain ⟨r, t1⟩ := v
      cases hg : runOnceGo env fuel url tMs rest t1 with
      | none => simp [hr, hg] at h
      | some w =>
        obtain ⟨rs2, t2⟩ := w
        simp only [hr, hg, Option.some.injEq, Prod.mk.injEq] at h
        rw [← h.1]
        simp [ih t1 rs2 t2 hg]

/-- C6 (`error_handling`): each measurement records a duration equal to the
elapsed time from just before the trigger to just after the target (or to
the moment of failure), rounded as the code does, whether it succeeds or
fails; any exception raised by the trigger or by the target is caught at
the measurement boundary and converted into a result with `ok = false` and
the exception message as the error; and no measurement failure aborts the
run — `run_once` returns one result per declared measurement. -/
theorem c6_measurement_boundary :
    (∀ (env : Env) (fuel : ℕ) (url : String) (tMs : ℤ) (m : Measurement) (t0 : ℚ)
        (e : PyErr) (t1 : ℚ),
      doTrigger env m.trigger url t0 tMs = (some e, t1) →
      runMeas env fuel url tMs m t0 =
        some (⟨m.name.getD "unnamed", false, round2 (t1 - t0), some e.msg, none⟩, t1)) ∧
    (∀ (env : Env) (fuel : ℕ) (url : String) (tMs : ℤ) (m : Measurement) (t0 tmid : ℚ)
        (e : PyErr) (t1 : ℚ) (tr : List Attempt),
      doTrigger env m.trigger url t0 tMs = (none, tmid) →
      doTarget env fuel m.target tmid tMs = (.err e, t1, tr) →
      runMeas env fuel url tMs m t0 =
        some (⟨m.name.getD "unnamed", false, round2 (t1 - t0), some e.msg, none⟩, t1)) ∧
    (∀ (env : Env) (fuel : ℕ) (url : String) (tMs : ℤ) (m : Measurement) (t0 tmid : ℚ)
        (d : Option (ℕ × Target)) (t1 : ℚ) (tr : List Attempt),
      doTrigger env m.trigger url t0 tMs = (none, tmid) →
      doTarget env fuel m.target tmid tMs = (.ok d, t1, tr) →
      runMeas env fuel url tMs m t0 =
        some (⟨m.name.getD "unnamed", true, round2 (t1 - t0), none, d⟩, t1)) ∧
    (∀ (env : Env) (fuel : ℕ) (url : String) (tMs : ℤ) (ms : List Measurement) (t0 : ℚ)
        (rs : List OneMeasurementResult) (tEnd : ℚ),
      runOnceGo env fuel url tMs ms t0 = some (rs, tEnd) → rs.length = ms.length) := by
  refine ⟨?_, ?_, ?_, fun env fuel url tMs => runOnceGo_length env fuel url tMs⟩
  · intro env fuel url tMs m t0 e t1 h
    simp [runMeas, h]
  · intro env fuel url tMs m t0 tmid e t1 tr h1 h2
    simp [runMeas, h1, h2]
  · intro env fuel url tMs m t0 tmid d t1 tr h1 h2
    simp [runMeas, h1, h2]

/-- The always-succeeding, zero-latency environment. -/
def envOk : Env where
  run := fun _ _ _ => (none, 0)
  snap := fun _ => ⟨0, 0, 0, ""⟩

/-- The environment whose primitive waits always time out (zero latency). -/
def envFail : Env where
  run := fun _ _ _ => (some ⟨"TimeoutError", "Timeout 400ms exceeded."⟩, 0)
  snap := fun _ => ⟨0, 0, 0, ""⟩

theorem c6_measurement_boundary_witness :
    (doTrigger envFail { type := some "click", selector := some "#b" } "u" 0 100 =
      (some ⟨"TimeoutError", "Timeout 400ms exceeded."⟩, 0 + 0)) ∧
    runMeas envFail 1 "u" 100
        { name := some "m", trigger := { type := some "click", selector := some "#b" },
          target := emptyTarget } 0 =
      some (⟨"m", false, round2 (0 + 0 - 0), some "Timeout 400ms exceeded.", none⟩, 0 + 0) := by
  have hd : doTrigger envFail { type := some "click", selector := some "#b" } "u" 0 100 =
      (some ⟨"TimeoutError", "Timeout 400ms exceeded."⟩, 0 + 0) := by
    simp [doTrigger, envFail]
  exact ⟨hd, c6_measurement_boundary.1 envFail 1 "u" 100
    { name := some "m", trigger := { type := some "click", selector := some "#b" },
      target := emptyTarget } 0 ⟨"TimeoutError", "Timeout 400ms exceeded."⟩ (0 + 0) hd⟩


/-! ## The sleep target (claim C9) -/

/-- A `sleep` target with a configured duration. -/
def sleepTgt (msv : ℤ) : Target :=
  .mk (some "sleep") none (some msv) none none none none none none

/-- A `wait_any` target racing a single `sleep` sub-target, with explicit
total timeout, slice and poll gap. -/
def anyTgt1 (msv T slice gap : ℤ) : Target :=
  .mk (some "wait_any") none none none none (some T) (some slice) (some gap)
    (some [sleepTgt msv])

/-- C9 (`functional_correctness`): the sleep target ignores the timeout
argument: for every target whose type is `sleep` and every timeout,
`do_target` waits the full configured `ms` and succeeds; consequently a
sleep sub-target nested inside `wait_any` is not clipped to the per-attempt
slice `min(slice_ms, remaining)` — even when its duration exceeds both the
slice and the total `wait_any` deadline it runs to completion and wins its
attempt after its full duration. -/
theorem c9_sleep_ignores_timeout :
    (∀ (env : Env) (fuel : ℕ) (t : Target) (now : ℚ) (tMs : ℤ),
      t.type = some "sleep" →
      exec env (fuel + 1) (.tgt t now tMs) =
        (.done (.ok none) (now + ((t.ms.getD 0 : ℤ) : ℚ)), [])) ∧
    (∀ (env : Env) (fuel : ℕ) (msv T slice gap tAmb : ℤ) (now : ℚ),
      0 < T → slice < msv → T < msv →
      doTarget env (fuel + 4) (anyTgt1 msv T slice gap) now tAmb =
        (.ok (some (0, sleepTgt msv)), now + (msv : ℚ),
          [⟨0, sleepTgt msv, now, min slice T, true⟩])) := by
  constructor
  · intro env fuel t now tMs h
    have hsm : stateMap "sleep" = none := rfl
    simp [exec, h, hsm]
  · intro env fuel msv T slice gap tAmb now hT hslice hTm
    have hTq : (0:ℚ) < (T : ℚ) := by exact_mod_cast hT
    have hlt : now < now + (T : ℚ) := by linarith
    have hfloor : ⌊max 0 (now + (T : ℚ) - now)⌋ = T := by
      rw [add_sub_cancel_left, max_eq_right (le_of_lt hTq), Int.floor_intCast]
    have hfloor2 : ⌊max (0:ℚ) (T : ℚ)⌋ = T := by
      rw [max_eq_right (le_of_lt hTq), Int.floor_intCast]
    have hnotle : ¬ (T ≤ 0) := by omega
    have hsm : stateMap "sleep" = none := rfl
    have hsm2 : stateMap "wait_any" = none := rfl
    simp [doTarget, exec, anyTgt1, sleepTgt, Target.type, Target.targets,
      Target.timeout_ms, Target.slice_ms, Target.poll_gap_ms, Target.ms,
      hsm, hsm2, hlt, hfloor, hfloor2, hnotle]

theorem c9_sleep_ignores_timeout_witness :
    (0 : ℤ) < 100 ∧ (40 : ℤ) < 500 ∧ (100 : ℤ) < 500 ∧
    doTarget envOk 4 (anyTgt1 500 100 40 50) 0 10000 =
      (.ok (some (0, sleepTgt 500)), 0 + ((500 : ℤ) : ℚ),
        [⟨0, sleepTgt 500, 0, min 40 100, true⟩]) :=
  ⟨by norm_num, by norm_num, by norm_num,
    c9_sleep_ignores_timeout.2 envOk 0 500 100 40 50 10000 0 (by norm_num) (by norm_num)
      (by norm_num)⟩


/-! ## Unknown trigger/target types (claim C1) -/

/-- A scenario whose first measurement has an unrecognized trigger type and
whose second measurement is well-formed. -/
def cfgBad : Cfg where
  url := "http://example"
  measurements :=
    [ { name := some "m1", trigger := { type := some "bogus" },
        target := sleepTgt 0 }
    , { name := some "m2", trigger := { type := some "sleep" },
        target := sleepTgt 0 } ]

/-- C1 counterexample: running the scenario `cfgBad`, whose first
measurement carries the unsupported trigger type `"bogus"`, does **not**
abort: the `ValueError` is caught at the measurement boundary and recorded
as a per-measurement failure (`ok = false`), and the second measurement
still executes and succeeds — contradicting the claim that the error is
fatal and aborts the whole process before any run starts. -/
theorem c1_counterexample :
    runOnce envOk 2 cfgBad 0 =
      some ([⟨"m1", false, 0, some "Unsupported trigger type: bogus", none⟩,
             ⟨"m2", true, 0, none, none⟩], 0) := by
  have hr0 : round2 (0 : ℚ) = 0 := by norm_num [round2, pyRoundInt]
  have hsm : stateMap "sleep" = none := rfl
  simp [runOnce, runOnceGo, runMeas, doTrigger, doTarget, exec, cfgBad, envOk,
    sleepTgt, hsm, hr0, Target.type, Target.selector, Target.ms, Target.targets,
    Target.stable_ms, Target.poll_ms, Target.timeout_ms, Target.slice_ms,
    Target.poll_gap_ms, pyShowOpt]

theorem runMeas_unknown_trigger (env : Env) (fuel : ℕ) (url : String) (tMs : ℤ)
    (m : Measurement) (t0 : ℚ) (t : String) (hty : m.trigger.type = some t)
    (h1 : t ≠ "goto") (h2 : t ≠ "click") (h3 : t ≠ "fill") (h4 : t ≠ "press")
    (h5 : t ≠ "sleep") :
    runMeas env fuel url tMs m t0 =
      some (⟨m.name.getD "unnamed", false, round2 0,
        some ("Unsupported trigger type: " ++ t), none⟩, t0) := by
  have hd : doTrigger env m.trigger url t0 tMs =
      (some ⟨"ValueError", "Unsupported trigger type: " ++ t⟩, t0) := by
    simp only [doTrigger, hty]
    split <;> simp_all [pyShowOpt]
  simp [runMeas, hd]

/-- C1 as amended: an unrecognized trigger or target type string raises a
`ValueError` identifying the unsupported type string, but only when the
measurement executes; the error is caught at the measurement boundary like
any other measurement failure, recorded as a result with `ok = false`
carrying the message, and the run continues with one result per declared
measurement — the process is not aborted before the runs. -/
theorem c1_unknown_type_amended :
    (∀ (env : Env) (fuel : ℕ) (url : String) (tMs : ℤ) (m : Measurement) (t0 : ℚ)
        (t : String),
      m.trigger.type = some t → t ≠ "goto" → t ≠ "click" → t ≠ "fill" → t ≠ "press" →
      t ≠ "sleep" →
      runMeas env fuel url tMs m t0 =
        some (⟨m.name.getD "unnamed", false, round2 0,
          some ("Unsupported trigger type: " ++ t), none⟩, t0)) ∧
    (∀ (env : Env) (fuel : ℕ) (t : Target) (now : ℚ) (tMs : ℤ) (s : String),
      t.type = some s → stateMap s = none → s ≠ "sleep" → s ≠ "wait_stable" →
      s ≠ "wait_any" →
      doTarget env (fuel + 1) t now tMs =
        (.err ⟨"ValueError", "Unsupported target type: " ++ s⟩, now, [])) ∧
    (∀ (env : Env) (fuel : ℕ) (url : String) (tMs : ℤ) (ms : List Measurement) (t0 : ℚ)
        (rs : List OneMeasurementResult) (tEnd : ℚ),
      runOnceGo env fuel url tMs ms t0 = some (rs, tEnd) → rs.length = ms.length) := by
  refine ⟨runMeas_unknown_trigger, ?_,
    fun env fuel url tMs => runOnceGo_length env fuel url tMs⟩
  intro env fuel t now tMs s hty hsm h1 h2 h3
  simp [doTarget, exec, hty, hsm, h1, h2, h3]

theorem c1_unknown_type_amended_witness :
    ({ type := some "bogus" } : TriggerDict).type = some "bogus" ∧
    runMeas envOk 1 "u" 10000
        { name := some "m1", trigger := { type := some "bogus" }, target := emptyTarget } 0 =
      some (⟨"m1", false, round2 0, some ("Unsupported trigger type: " ++ "bogus"), none⟩, 0) :=
  ⟨rfl, c1_unknown_type_amended.1 envOk 1 "u" 10000
    { name := some "m1", trigger := { type := some "bogus" }, target := emptyTarget } 0
    "bogus" rfl (by simp) (by simp) (by simp) (by simp) (by simp)⟩


/-! ## The wait-stable quiescence detector (claim C4) -/

theorem stableLoop_never_stable (snapSeq : ℕ → Snap) (stableMs pollMs : ℚ)
    (hst : 0 < stableMs) (hch : ∀ n, snapSeq (n + 1) ≠ snapSeq n) :
    ∀ (fuel k : ℕ),
      stableLoop snapSeq stableMs pollMs fuel (snapSeq k) k k = .more (k + fuel) := by
  intro fuel
  induction fuel with
  | zero => intro k; rfl
  | succ f ih =>
    intro k
    rw [stableLoop]
    simp only [if_pos (hch k)]
    rw [if_neg (by rw [sub_self]; exact not_le.mpr hst)]
    rw [ih (k + 1)]
    congr 1
    omega

theorem stableLoop_success_window (snapSeq : ℕ → Snap) (stableMs pollMs : ℚ) :
    ∀ (fuel k lc : ℕ) (prev : Snap) (m : ℕ),
      lc ≤ k → (∀ r, lc ≤ r → r ≤ k → snapSeq r = prev) →
      stableLoop snapSeq stableMs pollMs fuel prev lc k = .success m →
      ∃ j, j ≤ m ∧ stableMs ≤ ((m : ℚ) - (j : ℚ)) * pollMs ∧
        ∀ r, j ≤ r → r ≤ m → snapSeq r = snapSeq j := by
  intro fuel
  induction fuel with
  | zero => intro k lc prev m _ _ h; cases h
  | succ f ih =>
    intro k lc prev m hlck hinv h
    rw [stableLoop] at h
    by_cases hc : snapSeq (k + 1) ≠ prev
    · simp only [if_pos hc] at h
      by_cases hs : stableMs ≤ ((k + 1 : ℕ) : ℚ) * pollMs - ((k + 1 : ℕ) : ℚ) * pollMs
      · rw [if_pos hs] at h
        rw [sub_self] at hs
        refine ⟨m, le_rfl, ?_, ?_⟩
        · have hz : ((m : ℚ) - (m : ℚ)) * pollMs = 0 := by ring
          rw [hz]
          exact hs
        · intro r h1 h2
          have : r = m := le_antisymm h2 h1
          rw [this]
      · rw [if_neg hs] at h
        exact ih (k + 1) (k + 1) (snapSeq (k + 1)) m le_rfl
          (fun r h1 h2 => by rw [le_antisymm h2 h1]) h
    · push_neg at hc
      simp only [if_neg (not_not_intro hc)] at h
      by_cases hs : stableMs ≤ ((k + 1 : ℕ) : ℚ) * pollMs - (lc : ℚ) * pollMs
      · rw [if_pos hs] at h
        injection h with hm
        refine ⟨lc, by omega, ?_, ?_⟩
        · have hz : ((m : ℚ) - (lc : ℚ)) * pollMs = ((m : ℚ)) * pollMs - (lc : ℚ) * pollMs := by
            ring
          rw [hz, ← hm]
          exact hs
        · intro r h1 h2
          have hlc : snapSeq lc = prev := hinv lc le_rfl hlck
          rcases Nat.lt_or_ge r (k + 1) with hr | hr
          · rw [hinv r h1 (by omega), hlc]
          · have hrk : r = k + 1 := by omega
            rw [hrk, hc, hlc]
      · rw [if_neg hs] at h
        refine ih (k + 1) lc prev m (by omega) ?_ h
        intro r h1 h2
        rcases Nat.lt_or_ge r (k + 1) with hr | hr
        · exact hinv r h1 (by omega)
        · have : r = k + 1 := by omega
          rw [this, hc]

/-- C4 (`temporal`): `wait_stable` declares success only after a
`stable_ms`-long interval with no change in the structural snapshot, every
observed change resetting the debounce timer (first conjunct: any
successful run of the polling loop exhibits a change-free window of length
at least `stable_ms` ending at the success tick); consequently a document
whose snapshot changes at every poll never satisfies the condition and
`do_target` fails with a `TimeoutError` exactly when the outer timeout
elapses (second conjunct). -/
theorem c4_wait_stable_debounce :
    (∀ (snapSeq : ℕ → Snap) (stableMs pollMs : ℚ) (fuel m : ℕ),
      stableLoop snapSeq stableMs pollMs fuel (snapSeq 0) 0 0 = .success m →
      ∃ j, j ≤ m ∧ stableMs ≤ ((m : ℚ) - (j : ℚ)) * pollMs ∧
        ∀ r, j ≤ r → r ≤ m → snapSeq r = snapSeq j) ∧
    (∀ (env : Env) (t : Target) (now : ℚ) (tMs : ℤ) (fuel : ℕ),
      t.type = some "wait_stable" →
      0 < t.stable_ms.getD 600 →
      0 < t.poll_ms.getD 100 →
      (∀ u : ℚ, env.snap (u + ((t.poll_ms.getD 100 : ℤ) : ℚ)) ≠ env.snap u) →
      (tMs : ℚ) ≤ (fuel : ℚ) * ((t.poll_ms.getD 100 : ℤ) : ℚ) →
      doTarget env (fuel + 1) t now tMs =
        (.err ⟨"TimeoutError", "Timeout " ++ toString tMs ++ "ms exceeded."⟩,
          now + (tMs : ℚ), [])) := by
  constructor
  · intro snapSeq stableMs pollMs fuel m h
    exact stableLoop_success_window snapSeq stableMs pollMs fuel 0 0 (snapSeq 0) m le_rfl
      (fun r h1 h2 => by rw [Nat.le_zero.mp h2]) h
  · intro env t now tMs fuel hty hst hpm hchg hfuel
    have hstq : (0 : ℚ) < ((t.stable_ms.getD 600 : ℤ) : ℚ) := by exact_mod_cast hst
    have hch2 : ∀ n : ℕ,
        (fun n : ℕ => env.snap (now + (n : ℚ) * ((t.poll_ms.getD 100 : ℤ) : ℚ))) (n + 1) ≠
        (fun n : ℕ => env.snap (now + (n : ℚ) * ((t.poll_ms.getD 100 : ℤ) : ℚ))) n := by
      intro n
      have h := hchg (now + (n : ℚ) * ((t.poll_ms.getD 100 : ℤ) : ℚ))
      have harg : now + (n : ℚ) * ((t.poll_ms.getD 100 : ℤ) : ℚ) +
          ((t.poll_ms.getD 100 : ℤ) : ℚ) =
          now + ((n + 1 : ℕ) : ℚ) * ((t.poll_ms.getD 100 : ℤ) : ℚ) := by
        push_cast
        ring
      rw [harg] at h
      exact h
    have hns := stableLoop_never_stable
      (fun n : ℕ => env.snap (now + (n : ℚ) * ((t.poll_ms.getD 100 : ℤ) : ℚ)))
      ((t.stable_ms.getD 600 : ℤ) : ℚ) ((t.poll_ms.getD 100 : ℤ) : ℚ) hstq hch2 fuel 0
    have hsm : stateMap "wait_stable" = none := rfl
    simp only [doTarget, exec, hty, hsm, doWaitStable]
    rw [hns]
    simp [hfuel]

/-- The environment whose document changes at every instant (content height
equals the clock), so its snapshot differs at every poll. -/
def envChanging : Env where
  run := fun _ _ _ => (none, 0)
  snap := fun u => ⟨0, u, 0, ""⟩

/-- A bare `wait_stable` target (default `stable_ms`/`poll_ms`). -/
def wsTgt : Target := .mk (some "wait_stable") none none none none none none none none

theorem c4_wait_stable_debounce_witness :
    wsTgt.type = some "wait_stable" ∧
    (0 : ℤ) < wsTgt.stable_ms.getD 600 ∧ (0 : ℤ) < wsTgt.poll_ms.getD 100 ∧
    (∀ u : ℚ, envChanging.snap (u + ((wsTgt.poll_ms.getD 100 : ℤ) : ℚ)) ≠
      envChanging.snap u) ∧
    ((1000 : ℤ) : ℚ) ≤ ((10 : ℕ) : ℚ) * ((wsTgt.poll_ms.getD 100 : ℤ) : ℚ) ∧
    doTarget envChanging (10 + 1) wsTgt 0 1000 =
      (.err ⟨"TimeoutError", "Timeout " ++ toString (1000 : ℤ) ++ "ms exceeded."⟩,
        0 + ((1000 : ℤ) : ℚ), []) := by
  have hch : ∀ u : ℚ, envChanging.snap (u + ((wsTgt.poll_ms.getD 100 : ℤ) : ℚ)) ≠
      envChanging.snap u := by
    intro u
    simp [envChanging, wsTgt, Target.poll_ms, Snap.mk.injEq]
  refine ⟨rfl, by norm_num [wsTgt, Target.stable_ms],
    by norm_num [wsTgt, Target.poll_ms], hch, by norm_num [wsTgt, Target.poll_ms], ?_⟩
  exact c4_wait_stable_debounce.2 envChanging wsTgt 0 1000 10 rfl
    (by norm_num [wsTgt, Target.stable_ms]) (by norm_num [wsTgt, Target.poll_ms]) hch
    (by norm_num [wsTgt, Target.poll_ms])


/-! ## The wait-any racing combinator: tie-break order (claim C2) -/

theorem anyRound_first_success (env : Env) :
    ∀ (i : ℕ) (l : List Target) (hi : i < l.length) (deadline : ℚ) (slice gap : ℤ)
      (now : ℚ) (errOf : ℕ → ℤ → PyErr) (dwin : Option (ℕ × Target)) (tEnd : ℚ),
      0 < ⌊max 0 (deadline - now)⌋ →
      (∀ (j : ℕ) (hj : j < l.length), j < i → ∀ (f : ℕ) (tmo : ℤ),
        exec env (f + 1) (.tgt (l.get ⟨j, hj⟩) now tmo) =
          (.done (.err (errOf j tmo)) now, [])) →
      (∀ (f : ℕ) (tmo : ℤ),
        exec env (f + 1) (.tgt (l.get ⟨i, hi⟩) now tmo) = (.done (.ok dwin) tEnd, [])) →
      ∀ (F : ℕ) (idx0 : ℕ) (errs : List String), i + 2 ≤ F →
        exec env F (.anyRound l idx0 deadline slice gap errs now) =
          (.done (.ok (some (idx0 + i, l.get ⟨i, hi⟩))) tEnd,
            (List.range i).map (fun j =>
              (⟨idx0 + j, l.getD j emptyTarget, now,
                min slice ⌊max 0 (deadline - now)⌋, false⟩ : Attempt))
              ++ [⟨idx0 + i, l.get ⟨i, hi⟩, now,
                min slice ⌊max 0 (deadline - now)⌋, true⟩]) := by
  intro i
  induction i with
  | zero =>
    intro l hi deadline slice gap now errOf dwin tEnd hrem hfail hwin F idx0 errs hF
    obtain ⟨sub, rest, rfl⟩ : ∃ sub rest, l = sub :: rest := by
      cases l with
      | nil => cases hi
      | cons a as => exact ⟨a, as, rfl⟩
    obtain ⟨F1, rfl⟩ : ∃ F1, F = F1 + 1 := ⟨F - 1, by omega⟩
    obtain ⟨g, rfl⟩ : ∃ g, F1 = g + 1 := ⟨F1 - 1, by omega⟩
    rw [exec]
    simp only [if_neg (not_le.mpr hrem)]
    have hw : exec env (g + 1) (.tgt sub now (min slice ⌊max 0 (deadline - now)⌋)) =
        (.done (.ok dwin) tEnd, []) := hwin g (min slice ⌊max 0 (deadline - now)⌋)
    simp only [hw]
    simp
  | succ i ih =>
    intro l hi deadline slice gap now errOf dwin tEnd hrem hfail hwin F idx0 errs hF
    obtain ⟨sub, rest, rfl⟩ : ∃ sub rest, l = sub :: rest := by
      cases l with
      | nil => cases hi
      | cons a as => exact ⟨a, as, rfl⟩
    obtain ⟨F1, rfl⟩ : ∃ F1, F = F1 + 1 := ⟨F - 1, by omega⟩
    obtain ⟨g, rfl⟩ : ∃ g, F1 = g + 1 := ⟨F1 - 1, by omega⟩
    rw [exec]
    simp only [if_neg (not_le.mpr hrem)]
    have hf0 : exec env (g + 1) (.tgt sub now (min slice ⌊max 0 (deadline - now)⌋)) =
        (.done (.err (errOf 0 (min slice ⌊max 0 (deadline - now)⌋))) now, []) :=
      hfail 0 (by omega) (by omega) g (min slice ⌊max 0 (deadline - now)⌋)
    simp only [hf0]
    have hrest : i < rest.length := by
      have hx := hi
      simp at hx
      omega
    have hih := ih rest hrest deadline slice gap now (fun j tmo => errOf (j + 1) tmo) dwin tEnd
      hrem
      (fun j hj hji f tmo => by
        have h := hfail (j + 1) (by omega) (by omega) f tmo
        rwa [List.get_cons_succ] at h)
      (fun f tmo => by
        have h := hwin f tmo
        rwa [List.get_cons_succ] at h)
      (g + 1) (idx0 + 1)
      (errs ++ [subErrStr idx0 (errOf 0 (min slice ⌊max 0 (deadline - now)⌋))]) (by omega)
    simp only [hih]
    simp only [List.range_succ_eq_map, List.map_cons, List.map_map, Function.comp,
      List.getD_cons_zero, List.getD_cons_succ, Nat.add_zero, List.nil_append,
      List.singleton_append, List.cons_append, Prod.mk.injEq]
    have hidx : idx0 + 1 + i = idx0 + (i + 1) := by omega
    constructor
    · rw [hidx]
      rfl
    · rw [hidx]
      congr 1
      congr 1
      apply List.map_congr_left
      intro j hj
      have hj2 : idx0 + 1 + j = idx0 + (j + 1) := by omega
      simp [Function.comp, hj2]

/-- C2 (`functional_correctness`): within a `wait_any` round the sub-targets
are attempted strictly in list order; the first sub-target attempt that
succeeds ends the combinator immediately with a success result carrying the
winning sub-target's index and definition, and no later sub-target is
attempted in that round — the attempt trace consists exactly of the failed
attempts at indices `0..i-1` followed by the winning attempt at index `i`,
so of two simultaneously satisfiable sub-targets the earlier-declared one
is always the reported winner. -/
theorem c2_wait_any_first_wins :
    ∀ (env : Env) (ts : List Target) (i : ℕ) (hi : i < ts.length)
      (T slice gap tAmb : ℤ) (now : ℚ)
      (errOf : ℕ → ℤ → PyErr) (dwin : Option (ℕ × Target)) (tEnd : ℚ),
      0 < T →
      (∀ (j : ℕ) (hj : j < ts.length), j < i → ∀ (f : ℕ) (tmo : ℤ),
        exec env (f + 1) (.tgt (ts.get ⟨j, hj⟩) now tmo) =
          (.done (.err (errOf j tmo)) now, [])) →
      (∀ (f : ℕ) (tmo : ℤ),
        exec env (f + 1) (.tgt (ts.get ⟨i, hi⟩) now tmo) = (.done (.ok dwin) tEnd, [])) →
      ∀ F : ℕ, i + 4 ≤ F →
        doTarget env F
          (.mk (some "wait_any") none none none none (some T) (some slice) (some gap)
            (some ts)) now tAmb =
          (.ok (some (i, ts.get ⟨i, hi⟩)), tEnd,
            (List.range i).map (fun j =>
              (⟨j, ts.getD j emptyTarget, now, min slice T, false⟩ : Attempt))
              ++ [⟨i, ts.get ⟨i, hi⟩, now, min slice T, true⟩]) := by
  intro env ts i hi T slice gap tAmb now errOf dwin tEnd hT hfail hwin F hF
  obtain ⟨a, rfl⟩ : ∃ a, F = a + 2 := ⟨F - 2, by omega⟩
  have hTq : (0:ℚ) < (T : ℚ) := by exact_mod_cast hT
  have hdl : now < now + (T : ℚ) := by linarith
  have hfl : ⌊max 0 (now + (T : ℚ) - now)⌋ = T := by
    rw [add_sub_cancel_left, max_eq_right (le_of_lt hTq), Int.floor_intCast]
  have hrem : 0 < ⌊max 0 (now + (T : ℚ) - now)⌋ := by rw [hfl]; exact hT
  have hround := anyRound_first_success env i ts hi (now + (T : ℚ)) slice gap now errOf dwin
    tEnd hrem hfail hwin a 0 [] (by omega)
  rw [hfl] at hround
  obtain ⟨sub, rest, rfl⟩ : ∃ sub rest, ts = sub :: rest := by
    cases ts with
    | nil => cases hi
    | cons x xs => exact ⟨x, xs, rfl⟩
  have hsm : stateMap "wait_any" = none := rfl
  simp only [doTarget, exec, Target.type, Target.targets, Target.timeout_ms,
    Target.slice_ms, Target.poll_gap_ms, Target.ms, Target.stable_ms, Target.poll_ms,
    hsm, Option.getD_some]
  simp [hdl, hround]


/-- A `wait_visible` target for a selector. -/
def visTgt (sel : String) : Target :=
  .mk (some "wait_visible") (some sel) none none none none none none none

/-- Selector-driven environment: `#win` becomes visible instantly, every
other wait fails instantly. -/
def envSel : Env where
  run := fun op _ _ =>
    match op with
    | .waitFor "#win" _ => (none, 0)
    | _ => (some ⟨"TimeoutError", "Timeout 400ms exceeded."⟩, 0)
  snap := fun _ => ⟨0, 0, 0, ""⟩

theorem c2_wait_any_first_wins_witness :
    (0 : ℤ) < 1000 ∧
    doTarget envSel 5
        (.mk (some "wait_any") none none none none (some 1000) (some 400) (some 50)
          (some [visTgt "#lose", visTgt "#win"])) 0 10000 =
      (.ok (some (1, visTgt "#win")), 0,
        [⟨0, visTgt "#lose", 0, min 400 1000, false⟩,
         ⟨1, visTgt "#win", 0, min 400 1000, true⟩]) := by
  have hsm : stateMap "wait_visible" = some "visible" := rfl
  have hfail : ∀ (j : ℕ) (hj : j < ([visTgt "#lose", visTgt "#win"] : List Target).length),
      j < 1 → ∀ (f : ℕ) (tmo : ℤ),
      exec envSel (f + 1)
          (.tgt (([visTgt "#lose", visTgt "#win"] : List Target).get ⟨j, hj⟩) 0 tmo) =
        (.done (.err ⟨"TimeoutError", "Timeout 400ms exceeded."⟩) 0, []) := by
    intro j hj hj1 f tmo
    have hj0 : j = 0 := by omega
    subst hj0
    have h1 : envSel.run (.waitFor "#lose" "visible") 0 tmo =
        (some ⟨"TimeoutError", "Timeout 400ms exceeded."⟩, 0) := rfl
    simp [exec, visTgt, Target.type, Target.selector, hsm, h1]
  have hwin : ∀ (f : ℕ) (tmo : ℤ),
      exec envSel (f + 1)
          (.tgt (([visTgt "#lose", visTgt "#win"] : List Target).get ⟨1, by norm_num⟩) 0 tmo) =
        (.done (.ok none) 0, []) := by
    intro f tmo
    have h1 : envSel.run (.waitFor "#win" "visible") 0 tmo = (none, 0) := rfl
    simp [exec, visTgt, Target.type, Target.selector, hsm, h1]
  have h := c2_wait_any_first_wins envSel [visTgt "#lose", visTgt "#win"] 1 (by norm_num)
    1000 400 50 10000 0 (fun _ _ => ⟨"TimeoutError", "Timeout 400ms exceeded."⟩) none 0
    (by norm_num) hfail hwin 5 (by norm_num)
  refine ⟨by norm_num, ?_⟩
  simpa using h


/-! ## The wait-any racing combinator: timeout budget (claim C3) -/

theorem anyRound_all_fail (env : Env) (errF : Target → ℚ → ℤ → PyErr)
    (elF : Target → ℚ → ℤ → ℚ)
    (hel : ∀ (sub : Target) (t : ℚ) (tmo : ℤ),
      0 ≤ elF sub t tmo ∧ elF sub t tmo ≤ max 0 ((tmo : ℤ) : ℚ)) :
    ∀ (l : List Target) (deadline : ℚ) (slice gap : ℤ) (F idx0 : ℕ)
      (errs : List String) (now : ℚ),
      (∀ sub ∈ l, ∀ (f : ℕ) (t : ℚ) (tmo : ℤ),
        exec env (f + 1) (.tgt sub t tmo) =
          (.done (.err (errF sub t tmo)) (t + elF sub t tmo), [])) →
      l.length + 1 ≤ F → now ≤ deadline →
      ∃ errs2 t2 tr,
        exec env F (.anyRound l idx0 deadline slice gap errs now) =
          (.roundEnd (errs ++ errs2) t2, tr) ∧
        now ≤ t2 ∧ t2 ≤ deadline ∧
        ∀ a ∈ tr, a.ok = false ∧
          a.timeout = min slice ⌊max 0 (deadline - a.time)⌋ ∧ now ≤ a.time := by
  intro l
  induction l with
  | nil =>
    intro deadline slice gap F idx0 errs now hfail hF hnd
    obtain ⟨F1, rfl⟩ : ∃ F1, F = F1 + 1 := ⟨F - 1, by omega⟩
    refine ⟨[], now, [], ?_, le_rfl, hnd, by simp⟩
    rw [exec]
    simp
  | cons sub rest ih =>
    intro deadline slice gap F idx0 errs now hfail hF hnd
    have hF2 : rest.length + 2 ≤ F := by simpa using hF
    obtain ⟨g, rfl⟩ : ∃ g, F = g + 2 := ⟨F - 2, by omega⟩
    by_cases hrem : ⌊max 0 (deadline - now)⌋ ≤ 0
    · refine ⟨[], now, [], ?_, le_rfl, hnd, by simp⟩
      rw [exec]
      simp [hrem]
    · push_neg at hrem
      have hsub := hfail sub (List.mem_cons_self _ _) g now
        (min slice ⌊max 0 (deadline - now)⌋)
      have hel1 := hel sub now (min slice ⌊max 0 (deadline - now)⌋)
      have ht1d : now + elF sub now (min slice ⌊max 0 (deadline - now)⌋) ≤ deadline := by
        rcases le_or_lt (min slice ⌊max 0 (deadline - now)⌋) 0 with hp | hp
        · have hpq : ((min slice ⌊max 0 (deadline - now)⌋ : ℤ) : ℚ) ≤ 0 := by
            exact_mod_cast hp
          have hmx : max 0 ((min slice ⌊max 0 (deadline - now)⌋ : ℤ) : ℚ) = 0 :=
            max_eq_left hpq
          have h5 := hel1.2
          rw [hmx] at h5
          linarith
        · have hpq : (0:ℚ) < ((min slice ⌊max 0 (deadline - now)⌋ : ℤ) : ℚ) := by
            exact_mod_cast hp
          have hmx : max 0 ((min slice ⌊max 0 (deadline - now)⌋ : ℤ) : ℚ) =
              ((min slice ⌊max 0 (deadline - now)⌋ : ℤ) : ℚ) := max_eq_right (le_of_lt hpq)
          have h2 : ((min slice ⌊max 0 (deadline - now)⌋ : ℤ) : ℚ) ≤
              ((⌊max 0 (deadline - now)⌋ : ℤ) : ℚ) := by
            exact_mod_cast min_le_right slice ⌊max 0 (deadline - now)⌋
          have h3 : ((⌊max 0 (deadline - now)⌋ : ℤ) : ℚ) ≤ max 0 (deadline - now) :=
            Int.floor_le _
          have h4 : max 0 (deadline - now) = deadline - now := max_eq_right (by linarith)
          have h5 := hel1.2
          rw [hmx] at h5
          linarith
      have hrec := ih deadline slice gap (g + 1) (idx0 + 1)
        (errs ++ [subErrStr idx0 (errF sub now (min slice ⌊max 0 (deadline - now)⌋))])
        (now + elF sub now (min slice ⌊max 0 (deadline - now)⌋))
        (fun s hs f t tmo => hfail s (List.mem_cons_of_mem _ hs) f t tmo)
        (by omega) ht1d
      obtain ⟨errs2, t2, tr2, hexec, hle1, hle2, htr⟩ := hrec
      refine ⟨[subErrStr idx0 (errF sub now (min slice ⌊max 0 (deadline - now)⌋))] ++ errs2,
        t2, ⟨idx0, sub, now, min slice ⌊max 0 (deadline - now)⌋, false⟩ :: tr2, ?_, ?_,
        hle2, ?_⟩
      · rw [exec]
        simp only [if_neg (not_le.mpr hrem)]
        simp only [hsub]
        simp only [hexec]
        simp [List.append_assoc]
      · linarith [hel1.1]
      · intro a ha
        rcases List.mem_cons.mp ha with rfl | ha2
        · exact ⟨rfl, rfl, le_rfl⟩
        · obtain ⟨ho1, ho2, ho3⟩ := htr a ha2
          exact ⟨ho1, ho2, by linarith [hel1.1]⟩


theorem anyLoop_all_fail (env : Env) (errF : Target → ℚ → ℤ → PyErr)
    (elF : Target → ℚ → ℤ → ℚ)
    (hel : ∀ (sub : Target) (t : ℚ) (tmo : ℤ),
      0 ≤ elF sub t tmo ∧ elF sub t tmo ≤ max 0 ((tmo : ℤ) : ℚ))
    (l : List Target)
    (hfail : ∀ sub ∈ l, ∀ (f : ℕ) (t : ℚ) (tmo : ℤ),
      exec env (f + 1) (.tgt sub t tmo) =
        (.done (.err (errF sub t tmo)) (t + elF sub t tmo), [])) :
    ∀ (F : ℕ) (deadline : ℚ) (slice gap : ℤ) (errs : List String) (now : ℚ),
      0 < gap → now ≤ deadline →
      deadline - now ≤ (gap : ℚ) * ((F : ℚ) - ((l.length : ℚ) + 3)) →
      ∃ errs2 t2 tr,
        exec env F (.anyLoop l deadline slice gap errs now) =
          (.done (.err ⟨"TimeoutError", waitAnyMsg (errs ++ errs2)⟩) t2, tr) ∧
        deadline ≤ t2 ∧ t2 ≤ deadline + (gap : ℚ) ∧
        ∀ a ∈ tr, a.ok = false ∧ a.timeout = min slice ⌊max 0 (deadline - a.time)⌋ := by
  intro F
  induction F using Nat.strong_induction_on with
  | _ F IH =>
    intro deadline slice gap errs now hgap hnd hcond
    have hgapq : (0:ℚ) < (gap : ℚ) := by exact_mod_cast hgap
    have hFbig : l.length + 3 ≤ F := by
      by_contra hc
      push_neg at hc
      have h1 : (F : ℚ) - ((l.length : ℚ) + 3) ≤ -1 := by
        have h2 : (F : ℚ) ≤ (l.length : ℚ) + 2 := by
          exact_mod_cast (by omega : F ≤ l.length + 2)
        linarith
      nlinarith
    obtain ⟨F1, rfl⟩ : ∃ F1, F = F1 + 1 := ⟨F - 1, by omega⟩
    by_cases hlt : now < deadline
    · have hround := anyRound_all_fail env errF elF hel l deadline slice gap F1 0 errs now
        hfail (by omega) hnd
      obtain ⟨errsR, tR, trR, hexecR, hR1, hR2, htrR⟩ := hround
      by_cases hnext : tR + (gap : ℚ) < deadline
      · have hcond2 : deadline - (tR + (gap : ℚ)) ≤
            (gap : ℚ) * ((F1 : ℚ) - ((l.length : ℚ) + 3)) := by
          have hc1 : deadline - now ≤ (gap : ℚ) * ((F1 : ℚ) + 1 - ((l.length : ℚ) + 3)) := by
            have := hcond
            push_cast at this ⊢
            linarith
          nlinarith [hR1]
        have hrec := IH F1 (by omega) deadline slice gap (errs ++ errsR) (tR + (gap : ℚ))
          hgap (le_of_lt hnext) hcond2
        obtain ⟨errs2, t2, tr2, hexec2, h21, h22, htr2⟩ := hrec
        refine ⟨errsR ++ errs2, t2, trR ++ tr2, ?_, h21, h22, ?_⟩
        · rw [exec]
          simp only [if_pos hlt]
          simp only [hexecR]
          simp only [hexec2]
          simp [List.append_assoc]
        · intro a ha
          rcases List.mem_append.mp ha with h | h
          · exact ⟨(htrR a h).1, (htrR a h).2.1⟩
          · exact htr2 a h
      · push_neg at hnext
        obtain ⟨F2, rfl⟩ : ∃ F2, F1 = F2 + 1 := ⟨F1 - 1, by omega⟩
        have hinner : exec env (F2 + 1)
            (.anyLoop l deadline slice gap (errs ++ errsR) (tR + (gap : ℚ))) =
            (.done (.err ⟨"TimeoutError", waitAnyMsg (errs ++ errsR)⟩) (tR + (gap : ℚ)), []) := by
          rw [exec]
          simp [not_lt.mpr hnext]
        refine ⟨errsR, tR + (gap : ℚ), trR, ?_, hnext, by linarith, ?_⟩
        · rw [exec]
          simp only [if_pos hlt]
          simp only [hexecR]
          simp only [hinner]
          simp
        · intro a ha
          exact ⟨(htrR a ha).1, (htrR a ha).2.1⟩
    · push_neg at hlt
      refine ⟨[], now, [], ?_, hlt, by linarith, by simp⟩
      rw [exec]
      simp [not_lt.mpr hlt]


/-- C3 (`temporal`): for a `wait_any` whose sub-targets never succeed, each
recorded sub-target attempt is bounded by a timeout of
`min(slice_ms, remaining until the deadline)`, and the combinator fails
with a `TimeoutError` no earlier than `total_timeout_ms` after it starts
and no later than `total_timeout_ms + slice_ms + poll_gap_ms`, the error
message listing at most the last 6 recorded per-sub-target errors (the
bounded tail of the recorded error list). -/
theorem c3_wait_any_timeout :
    ∀ (env : Env) (ts : List Target) (T slice gap tAmb : ℤ) (now : ℚ)
      (errF : Target → ℚ → ℤ → PyErr) (elF : Target → ℚ → ℤ → ℚ),
      ts ≠ [] → 0 ≤ T → 0 < gap → 0 ≤ slice →
      (∀ sub ∈ ts, ∀ (f : ℕ) (t : ℚ) (tmo : ℤ),
        exec env (f + 1) (.tgt sub t tmo) =
          (.done (.err (errF sub t tmo)) (t + elF sub t tmo), [])) →
      (∀ (sub : Target) (t : ℚ) (tmo : ℤ),
        0 ≤ elF sub t tmo ∧ elF sub t tmo ≤ max 0 ((tmo : ℤ) : ℚ)) →
      ∀ f : ℕ, (T : ℚ) ≤ (gap : ℚ) * ((f : ℚ) - ((ts.length : ℚ) + 3)) →
        ∃ errs tEnd tr,
          doTarget env (f + 1)
            (.mk (some "wait_any") none none none none (some T) (some slice) (some gap)
              (some ts)) now tAmb =
            (.err ⟨"TimeoutError", waitAnyMsg errs⟩, tEnd, tr) ∧
          now + (T : ℚ) ≤ tEnd ∧
          tEnd ≤ now + (T : ℚ) + (slice : ℚ) + (gap : ℚ) ∧
          (lastN 6 errs).length ≤ 6 ∧ lastN 6 errs <:+ errs ∧
          ∀ a ∈ tr, a.ok = false ∧
            a.timeout = min slice ⌊max 0 ((now + (T : ℚ)) - a.time)⌋ := by
  intro env ts T slice gap tAmb now errF elF hne hT hgap hslice hfail hel f hcond
  have hTq : (0:ℚ) ≤ (T : ℚ) := by exact_mod_cast hT
  have hsq : (0:ℚ) ≤ (slice : ℚ) := by exact_mod_cast hslice
  have hnd : now ≤ now + (T : ℚ) := by linarith
  have hcond2 : (now + (T : ℚ)) - now ≤ (gap : ℚ) * ((f : ℚ) - ((ts.length : ℚ) + 3)) := by
    rw [add_sub_cancel_left]
    exact hcond
  obtain ⟨errs2, t2, tr, hexec, hb1, hb2, htr⟩ :=
    anyLoop_all_fail env errF elF hel ts hfail f (now + (T : ℚ)) slice gap [] now hgap hnd
      hcond2
  refine ⟨errs2, t2, tr, ?_, hb1, by linarith, ?_, ?_, htr⟩
  · obtain ⟨sub, rest, rfl⟩ : ∃ sub rest, ts = sub :: rest := by
      cases ts with
      | nil => exact absurd rfl hne
      | cons x xs => exact ⟨x, xs, rfl⟩
    have hsm : stateMap "wait_any" = none := rfl
    simp only [doTarget, exec, Target.type, Target.targets, Target.timeout_ms,
      Target.slice_ms, Target.poll_gap_ms, Target.ms, Target.stable_ms, Target.poll_ms,
      hsm, Option.getD_some]
    simp [hexec]
  · simp only [lastN, List.length_drop]
    omega
  · exact List.drop_suffix _ _

theorem c3_wait_any_timeout_witness :
    ([visTgt "#a"] : List Target) ≠ [] ∧
    ∃ errs tEnd tr,
      doTarget envFail (10 + 1)
        (.mk (some "wait_any") none none none none (some 100) (some 400) (some 50)
          (some [visTgt "#a"])) 0 10000 =
        (.err ⟨"TimeoutError", waitAnyMsg errs⟩, tEnd, tr) ∧
      (0 : ℚ) + ((100 : ℤ) : ℚ) ≤ tEnd ∧
      tEnd ≤ (0 : ℚ) + ((100 : ℤ) : ℚ) + ((400 : ℤ) : ℚ) + ((50 : ℤ) : ℚ) ∧
      (lastN 6 errs).length ≤ 6 ∧ lastN 6 errs <:+ errs ∧
      ∀ a ∈ tr, a.ok = false ∧
        a.timeout = min 400 ⌊max 0 (((0 : ℚ) + ((100 : ℤ) : ℚ)) - a.time)⌋ := by
  have hsm : stateMap "wait_visible" = some "visible" := rfl
  have hfail : ∀ sub ∈ ([visTgt "#a"] : List Target), ∀ (f : ℕ) (t : ℚ) (tmo : ℤ),
      exec envFail (f + 1) (.tgt sub t tmo) =
        (.done (.err ((fun (_ : Target) (_ : ℚ) (_ : ℤ) =>
            (⟨"TimeoutError", "Timeout 400ms exceeded."⟩ : PyErr)) sub t tmo))
          (t + (fun (_ : Target) (_ : ℚ) (_ : ℤ) => (0:ℚ)) sub t tmo), []) := by
    intro sub hs f t tmo
    have hs1 : sub = visTgt "#a" := by simpa using hs
    subst hs1
    have h1 : envFail.run (.waitFor "#a" "visible") t tmo =
        (some ⟨"TimeoutError", "Timeout 400ms exceeded."⟩, 0) := rfl
    simp [exec, visTgt, Target.type, Target.selector, hsm, h1]
  have hel : ∀ (sub : Target) (t : ℚ) (tmo : ℤ),
      0 ≤ (fun (_ : Target) (_ : ℚ) (_ : ℤ) => (0:ℚ)) sub t tmo ∧
      (fun (_ : Target) (_ : ℚ) (_ : ℤ) => (0:ℚ)) sub t tmo ≤ max 0 ((tmo : ℤ) : ℚ) := by
    intro sub t tmo
    exact ⟨le_rfl, le_max_left _ _⟩
  exact ⟨by simp, c3_wait_any_timeout envFail [visTgt "#a"] 100 400 50 10000 0
    (fun _ _ _ => ⟨"TimeoutError", "Timeout 400ms exceeded."⟩) (fun _ _ _ => 0)
    (by simp) (by norm_num) (by norm_num) (by norm_num) hfail hel 10 (by norm_num)⟩

end Scrapperf
